import Mathlib

/-!
# A shallow embedding of `sflag` (zhuah/sflag, `flag.go`)

This file embeds the reflective flag-binding engine of the `sflag` Go
package: the per-field classification loop of `Parser.parse`, the
env/default initialisation of `addFlag`, the positional-token
distribution loop, and `Parser.resolveSubCommand`.

Modelling conventions:
* A Go struct ("record") is a `List FieldSpec` (declaration order) together
  with a parallel `List Value` holding the fields' storage cells.
* Go `panic` is modelled by the `fatal` constructors (for the field scan,
  by `Except.error`); Go `reflect` panics on setting unexported fields are
  modelled the same way.
* Machine integers are `Int`/`Nat` with explicit range checks mirroring
  `strconv.ParseInt`/`ParseUint` bit sizes.  Float fields
  (`float32`/`float64`) are outside the embedding (IEEE floating point).
* The underlying token parser is Go's stdlib `flag.FlagSet`.  It is not
  part of this repository; `fsParse` models the contract the spec states
  for it (scan `-name value` / `-name=value`, stop at the first non-flag
  token, `--` terminator, unknown-flag errors, `-h`/`-help` help
  recognition, bool flags set by bare presence), following stdlib
  behaviour.
* `os.Getenv` is modelled by an environment `String → Option String`;
  `getenv` returns `""` for an unset variable exactly as in Go.
* Error message strings elide the `%v` tail that Go appends from the
  underlying `strconv` error; messages produced by `sflag` itself are
  reproduced verbatim.
-/

namespace Sflag

/-- Field storage contents (one cell of the caller's record). -/
inductive Value where
  | bool (b : Bool)
  | int (i : Int)
  | uint (n : Nat)
  | str (s : String)
  | strs (l : List String)
deriving DecidableEq, Repr

/-- The reflect kind of a field's declared type, as `flag.go` distinguishes
them.  `other` stands for any further type; such a type would be bound only
through the `flag.Value` capability, which no claim exercises, so `other`
fields behave as "does not implement `flag.Value`" (skipped). -/
inductive Kind where
  | bool
  | int | int8 | int16 | int32 | int64
  | uint | uint8 | uint16 | uint32 | uint64
  | string
  | stringSlice
  | other
deriving DecidableEq, Repr

/-- Bit width used by `commonflagValue.Set` (`p.val.Type().Size()*8`);
`int`/`uint` are 64-bit as on the platforms the package targets. -/
def Kind.bits : Kind → Nat
  | .int => 64 | .int8 => 8 | .int16 => 16 | .int32 => 32 | .int64 => 64
  | .uint => 64 | .uint8 => 8 | .uint16 => 16 | .uint32 => 32 | .uint64 => 64
  | _ => 0

/-- Kinds handled by `commonflagValue` (the typed cell adapter). -/
def Kind.isPrimitive : Kind → Bool
  | .bool | .int | .int8 | .int16 | .int32 | .int64
  | .uint | .uint8 | .uint16 | .uint32 | .uint64 | .string => true
  | .stringSlice | .other => false

/-- `reflect.Kind.String()` for the kinds we model. -/
def Kind.typeStr : Kind → String
  | .bool => "bool"
  | .int => "int" | .int8 => "int8" | .int16 => "int16"
  | .int32 => "int32" | .int64 => "int64"
  | .uint => "uint" | .uint8 => "uint8" | .uint16 => "uint16"
  | .uint32 => "uint32" | .uint64 => "uint64"
  | .string => "string"
  | .stringSlice => "slice"
  | .other => "other"

/-- One struct field: its Go identifier, whether it is embedded
(anonymous), its struct tags, and its type's kind.  `tagName`, `tagUsage`,
`tagEnv`, `tagDefault` model `Tag.Get` (absent tag = `""`); `tagShort`
models `Tag.Lookup("short")` (present/absent with value). -/
structure FieldSpec where
  fname : String
  anonymous : Bool := false
  tagName : String := ""
  tagUsage : String := ""
  tagEnv : String := ""
  tagDefault : String := ""
  tagShort : Option String := none
  kind : Kind
deriving DecidableEq, Repr

/-- Go `isExported` from `flag.go`: first rune of the identifier is
upper-case. -/
def isExported (name : String) : Bool :=
  match name.data with
  | [] => false
  | c :: _ => c.isUpper

/-- Does the string start with the given character?  (The `startsWith`
uses in `flag.go` are all single-character prefixes.) -/
def startsWithChar (c : Char) (s : String) : Bool :=
  match s.data with
  | [] => false
  | c2 :: _ => c2 == c

/-- `s.drop 1` (used after a matched single-character prefix). -/
def dropFirst (s : String) : String :=
  String.mk s.data.tail

/-- `strings.TrimPrefix(s, "-")`. -/
def trimDash (s : String) : String :=
  match s.data with
  | '-' :: rest => String.mk rest
  | _ => s

/-- `strings.TrimSpace`. -/
def trimSpace (s : String) : String :=
  String.mk (((s.data.dropWhile Char.isWhitespace).reverse.dropWhile
    Char.isWhitespace).reverse)

/-- `strings.Split(s, ",")` on the character list (split at every comma;
the empty input gives one empty piece, as in Go). -/
def splitComma : List Char → List (List Char)
  | [] => [[]]
  | c :: rest =>
      if c = ',' then [] :: splitComma rest
      else
        match splitComma rest with
        | [] => [[c]]
        | g :: gs => (c :: g) :: gs

/-- `strings.ToUpper` (ASCII; tags and identifiers are ASCII). -/
def upperAll (s : String) : String :=
  String.mk (s.data.map Char.toUpper)

/-- `strings.ToLower(name[:1])`: the lower-cased first letter alone. -/
def firstLower (s : String) : String :=
  match s.data with
  | [] => ""
  | c :: _ => String.mk [c.toLower]

/-- `strings.ToLower(name[:1]) + name[1:]`: lower-case the first letter. -/
def lowerFirst (s : String) : String :=
  match s.data with
  | [] => s
  | c :: rest => String.mk (c.toLower :: rest)

/-- `splitAndTrim` from `flag.go`: split a `name` tag at commas, trim
whitespace and one leading dash from each piece, drop empty pieces. -/
def splitAndTrim (name : String) : List String :=
  (((splitComma name.data).map
    (fun l => trimDash (trimSpace (String.mk l)))).filter (fun t => t ≠ ""))

/-- `strconv.ParseBool`. -/
def goParseBool : String → Option Bool
  | "1" | "t" | "T" | "true" | "TRUE" | "True" => some true
  | "0" | "f" | "F" | "false" | "FALSE" | "False" => some false
  | _ => none

/-- Decimal digit string to value; `none` unless nonempty and all digits. -/
def decDigits : List Char → Option Nat
  | [] => none
  | [c] => if c.isDigit then some (c.toNat - '0'.toNat) else none
  | c :: cs => do
    let hi ← if c.isDigit then some (c.toNat - '0'.toNat) else none
    let lo ← decDigits cs
    pure (hi * 10 ^ cs.length + lo)

/-- `strconv.ParseUint(s, 10, bits)`: decimal digits only (no sign), range
checked against the bit width. -/
def goParseUint (bits : Nat) (s : String) : Option Nat := do
  let n ← decDigits s.data
  if n < 2 ^ bits then pure n else none

/-- `strconv.ParseInt(s, 10, bits)`: optional sign, decimal digits, range
checked against the bit width. -/
def goParseInt (bits : Nat) (s : String) : Option Int := do
  let v : Int ← match s.data with
    | '+' :: ds => (decDigits ds).map (Int.ofNat ·)
    | '-' :: ds => (decDigits ds).map (fun n => -(Int.ofNat n))
    | ds => (decDigits ds).map (Int.ofNat ·)
  if -(2 ^ (bits - 1) : Int) ≤ v ∧ v < 2 ^ (bits - 1) then pure v else none

/-- One character of `strconv.Quote` output.  Faithful for printable ASCII
(every literal the claims evaluate); other characters, which Go escapes,
are kept as-is. -/
def goQuoteChar (c : Char) : List Char :=
  if c = '"' then ['\\', '"']
  else if c = '\\' then ['\\', '\\']
  else if c = '\n' then ['\\', 'n']
  else if c = '\t' then ['\\', 't']
  else if c = '\r' then ['\\', 'r']
  else [c]

/-- `strconv.Quote` (see `goQuoteChar` for the modelled subset). -/
def goQuote (s : String) : String :=
  String.mk ('"' :: (s.data.map goQuoteChar).flatten ++ ['"'])

/-- `fmt` `%v` rendering of a `[]string`. -/
def goFmtStrs (l : List String) : String :=
  "[" ++ String.intercalate " " l ++ "]"

/-- What `commonflagValue.Set` would store for a given text, by kind:
`none` is a `strconv` parse error. -/
def parsePrim (k : Kind) (s : String) : Option Value :=
  match k with
  | .bool => (goParseBool s).map Value.bool
  | .int | .int8 | .int16 | .int32 | .int64 =>
      (goParseInt k.bits s).map Value.int
  | .uint | .uint8 | .uint16 | .uint32 | .uint64 =>
      (goParseUint k.bits s).map Value.uint
  | .string => some (Value.str s)
  | .stringSlice | .other => none

/-- Result of one `flag.Value.Set` call: parse error, Go panic (message),
or the updated record cells. -/
inductive SetRes where
  | ok (vals : List Value)
  | err
  | fatal (m : String)
deriving DecidableEq, Repr

/-- `commonflagValue.Set` on field `i` of the record: parse the text for
the field's kind first (returning an error on failure as Go does), then
store it — where storing into an unexported field is a `reflect` panic. -/
def setPrim (f : FieldSpec) (vals : List Value) (i : Nat) (s : String) : SetRes :=
  match parsePrim f.kind s with
  | none =>
      if f.kind.isPrimitive then .err
      else .fatal "unreachable"
  | some v =>
      if isExported f.fname then .ok (vals.set i v)
      else .fatal "reflect: reflect.Value.Set using value obtained using unexported field"

/-- `reflect.Value.SetString` on positional single field `i` (used directly
by the distribution loop, without `commonflagValue`). -/
def setStrDirect (fields : List FieldSpec) (vals : List Value) (i : Nat)
    (s : String) : Except String (List Value) :=
  match fields[i]? with
  | none => .error "runtime error: index out of range"
  | some f =>
      if isExported f.fname then .ok (vals.set i (Value.str s))
      else .error "reflect: reflect.Value.Set using value obtained using unexported field"

/-- `reflect.Value.Set` of a `[]string` into the positional multi field. -/
def setSliceDirect (fields : List FieldSpec) (vals : List Value) (i : Nat)
    (l : List String) : Except String (List Value) :=
  match fields[i]? with
  | none => .error "runtime error: index out of range"
  | some f =>
      if isExported f.fname then .ok (vals.set i (Value.strs l))
      else .error "reflect: reflect.Value.Set using value obtained using unexported field"

/-- `os.Getenv` over a modelled process environment: an unset variable
reads as the empty string. -/
def getenv (envm : String → Option String) (key : String) : String :=
  (envm key).getD ""

/-- A flag registered with the underlying `flag.FlagSet`: its name and the
index of the record field whose cell it binds (all aliases of one field
share the index). -/
structure RegEntry where
  name : String
  idx : Nat
deriving DecidableEq, Repr

/-- `flagInfo` from `flag.go` (the help-description entry). -/
structure FlagInfo where
  name : String
  env : String := ""
  defaultStr : String := ""
  usage : String := ""
  typeStr : String := ""
  nonFlag : Bool := false
  nonFlagSlice : Bool := false
deriving DecidableEq, Repr

/-- State accumulated by the field loop of `Parser.parse`: the record
cells (mutated by env/default application), the flags registered with the
`flag.FlagSet`, the indices of the `string` non-flag fields
(`nonFlagStringFields`), the index of the single `[]string` non-flag field
(`nonFlagSliceField`), and the three description tables of
`commandFlags`. -/
structure ScanSt where
  vals : List Value
  reg : List RegEntry := []
  singles : List Nat := []
  multi : Option Nat := none
  flags : List FlagInfo := []
  stringNonFlags : List FlagInfo := []
  sliceNonFlags : List FlagInfo := []
deriving DecidableEq, Repr

/-- First registered flag with the given name. -/
def lookupReg (reg : List RegEntry) (name : String) : Option Nat :=
  (reg.find? (fun e => e.name == name)).map (·.idx)

/-- `flag.FlagSet.Var`: register one alias, panicking (Go) on a leading
dash, an `=`, or a redefinition. -/
def goVar (reg : List RegEntry) (name : String) (i : Nat) :
    Except String (List RegEntry) :=
  if startsWithChar '-' name then
    .error ("flag " ++ goQuote name ++ " begins with -")
  else if name.data.contains '=' then
    .error ("flag " ++ goQuote name ++ " contains =")
  else if (lookupReg reg name).isSome then
    .error ("flag redefined: " ++ name)
  else
    .ok (reg ++ [⟨name, i⟩])

/-- Register every alias of field `i` (the `iterNames` loop of `addFlag`). -/
def registerNames (reg : List RegEntry) (names : List String) (i : Nat) :
    Except String (List RegEntry) :=
  match names with
  | [] => .ok reg
  | n :: ns =>
      match goVar reg n i with
      | .error m => .error m
      | .ok reg2 => registerNames reg2 ns i

/-- The env-then-default initialisation in `addFlag`: if an `env` tag is
present and the variable reads non-empty, try to set the cell from it; the
`default` literal is attempted only when that did not succeed.  Returns the
cells and whether a value was applied. -/
def applyEnv (envm : String → Option String) (f : FieldSpec) (i : Nat)
    (vals : List Value) (env : String) : Except String (List Value × Bool) :=
  if env ≠ "" then
    if getenv envm env ≠ "" then
      match setPrim f vals i (getenv envm env) with
      | .fatal m => .error m
      | .err => .ok (vals, false)
      | .ok w => .ok (w, true)
    else .ok (vals, false)
  else .ok (vals, false)

/-- See `applyEnv`: the second half of the env-then-default block. -/
def applyDefault (f : FieldSpec) (i : Nat) (vals : List Value)
    (defstr : String) (applied : Bool) : Except String (List Value × Bool) :=
  if defstr ≠ "" ∧ applied = false then
    match setPrim f vals i defstr with
    | .fatal m => .error m
    | .err => .ok (vals, false)
    | .ok w => .ok (w, true)
  else .ok (vals, applied)

def applyEnvDefault (envm : String → Option String) (f : FieldSpec) (i : Nat)
    (vals : List Value) (env defstr : String) :
    Except String (List Value × Bool) :=
  match applyEnv envm f i vals env with
  | .error m => .error m
  | .ok (vals1, applied1) => applyDefault f i vals1 defstr applied1

/-- The rewriting of the default literal for display in `addFlag`: string
defaults are `strconv.Quote`d. -/
def quoteDefault (k : Kind) (defstr : String) : String :=
  if defstr ≠ "" ∧ k = Kind.string then goQuote defstr else defstr

/-- `addFlag` from `flag.go` for field `i`: primitive kinds get the
`commonflagValue` adapter; any other kind would need the `flag.Value`
capability, which none of the modelled kinds has, so it is skipped
(`.ok none`).  Otherwise apply env/default, quote a string default for
display, and register every alias.  Returns the display default together
with the updated cells and registrations. -/
def addFlagM (envm : String → Option String) (f : FieldSpec) (i : Nat)
    (vals : List Value) (reg : List RegEntry)
    (names : List String) (env defstr : String) :
    Except String (Option (String × List Value × List RegEntry)) :=
  if ¬ f.kind.isPrimitive then
    .ok none
  else
    match applyEnvDefault envm f i vals env defstr with
    | .error m => .error m
    | .ok (vals2, _) =>
        match registerNames reg names i with
        | .error m => .error m
        | .ok reg2 => .ok (some (quoteDefault f.kind defstr, vals2, reg2))

/-- One iteration of the field loop of `Parser.parse` for field `f` at
index `i`: skip embedded fields and `name:"-"`; classify `#`-tagged fields
as positional (string = single, `[]string` = the unique multi, anything
else = configuration panic); otherwise resolve the flag name (explicit tag,
or derived from an exported identifier, honouring `short`), and register
via `addFlag`. -/
def processField (envm : String → Option String) (i : Nat) (f : FieldSpec)
    (st : ScanSt) : Except String ScanSt :=
  if f.anonymous then .ok st
  else
    let name := f.tagName
    let usage := f.tagUsage
    let env := f.tagEnv
    if name = "-" then .ok st
    else if startsWithChar '#' name then
      let rest := dropFirst name
      let label := if rest = "" then upperAll f.fname else rest
      match f.kind with
      | .string =>
          .ok { st with
            singles := st.singles ++ [i],
            stringNonFlags := st.stringNonFlags ++
              [{ name := label, usage := usage, typeStr := "string",
                 nonFlag := true }] }
      | .stringSlice =>
          if st.multi.isSome then
            .error ("duplicated non-flag field of type []string: " ++ f.fname)
          else
            .ok { st with
              multi := some i,
              sliceNonFlags := st.sliceNonFlags ++
                [{ name := label, usage := usage, typeStr := "string",
                   nonFlagSlice := true }] }
      | _ => .error ("only string/[]string allowed for non-flag field: " ++ f.fname)
    else
      let nameRes : Option String :=
        if name = "" then
          if f.fname = "" ∨ ¬ isExported f.fname then none
          else
            let asShort : Bool :=
              match f.tagShort with
              | none => false
              | some v => if v = "" then true else (goParseBool v).getD false
            if asShort then some (firstLower f.fname)
            else some (lowerFirst f.fname)
        else some name
      match nameRes with
      | none => .ok st
      | some name =>
          let names := splitAndTrim name
          let defstr := f.tagDefault
          match addFlagM envm f i st.vals st.reg names env defstr with
          | .error m => .error m
          | .ok none => .ok st
          | .ok (some (defstr2, vals2, reg2)) =>
              .ok { st with
                vals := vals2, reg := reg2,
                flags := st.flags ++
                  [{ name := String.intercalate "/" (names.map ("-" ++ ·)),
                     env := env, defaultStr := defstr2, usage := usage,
                     typeStr := f.kind.typeStr, nonFlag := true }] }

/-- The whole field loop, processing the fields in declaration order
starting at absolute index `i`. -/
def scanFields (envm : String → Option String) (i : Nat) :
    List FieldSpec → ScanSt → Except String ScanSt
  | [], st => .ok st
  | f :: fs, st =>
      match processField envm i f st with
      | .error m => .error m
      | .ok st2 => scanFields envm (i + 1) fs st2

/-- Field reflection plus flag-set building for a whole record. -/
def scanRecord (envm : String → Option String) (fields : List FieldSpec)
    (vals : List Value) : Except String ScanSt :=
  scanFields envm 0 fields { vals := vals }

/-- Shape of one command-line token as `flag.FlagSet.parseOne` sees it. -/
inductive TokForm where
  | nonflag
  | term
  | bad
  | flagTok (name : String) (value : Option String)
deriving DecidableEq, Repr

/-- Split a flag body at the first `=` (name, optional value). -/
def splitEq : List Char → List Char × Option (List Char)
  | [] => ([], none)
  | '=' :: rest => ([], some rest)
  | c :: rest =>
      let (n, v) := splitEq rest
      (c :: n, v)

/-- Validate and split a flag body (the token after its dashes): a leading
`-` or `=` is bad syntax, otherwise split off an inline `=value`. -/
def analyzeName (cs : List Char) : TokForm :=
  match cs with
  | [] => .bad
  | c :: _ =>
      if c = '-' ∨ c = '=' then .bad
      else
        let (n, v) := splitEq cs
        .flagTok (String.mk n) (v.map String.mk)

/-- Classify one token: shorter than two characters or not starting with
`-` is a non-flag token (scanning stops there); `--` alone terminates
flag scanning; otherwise strip one or two dashes and analyze the body. -/
def parseFlagToken (s : String) : TokForm :=
  match s.data with
  | '-' :: '-' :: [] => .term
  | '-' :: '-' :: c :: cs => analyzeName (c :: cs)
  | '-' :: c :: cs => analyzeName (c :: cs)
  | _ => .nonflag

/-- Error kinds surfaced by a parse call: the distinguished help request
(`flag.ErrHelp`) or an ordinary error message. -/
inductive PErr where
  | help
  | msg (s : String)
deriving DecidableEq, Repr

/-- Result of `flag.FlagSet.Parse`: the updated cells plus the leftover
non-flag tokens (`Args()`), an error carrying the cells mutated so far, or
a Go panic. -/
inductive FSRes where
  | ok (vals : List Value) (rest : List String)
  | err (e : PErr) (vals : List Value)
  | fatal (m : String)
deriving DecidableEq, Repr

/-- Whether registered flag `i` is a bool flag (`commonflagValue.IsBoolFlag`). -/
def isBoolFlag (fields : List FieldSpec) (i : Nat) : Bool :=
  match fields[i]? with
  | some f => f.kind = Kind.bool
  | none => false

/-- `flag.FlagSet.Parse` over the registered flags (stdlib `flag`,
the underlying parser collaborator of the spec): scan tokens left to
right; stop at the first non-flag token or after `--`; unknown flags are
errors except `-h`/`-help`, which produce the distinguished help error;
bool flags are set by bare presence, other flags take `=value` or the next
token.  Each successful `Set` writes through to the record cells. -/
def fsParse (fields : List FieldSpec) (reg : List RegEntry) :
    List Value → List String → FSRes
  | vals, [] => .ok vals []
  | vals, s :: rest =>
    match parseFlagToken s with
    | .nonflag => .ok vals (s :: rest)
    | .term => .ok vals rest
    | .bad => .err (.msg ("bad flag syntax: " ++ s)) vals
    | .flagTok name value? =>
      match lookupReg reg name with
      | none =>
          if name = "help" ∨ name = "h" then .err .help vals
          else .err (.msg ("flag provided but not defined: -" ++ name)) vals
      | some i =>
          if isBoolFlag fields i then
            match fields[i]? with
            | none => .fatal "runtime error: index out of range"
            | some f =>
              match setPrim f vals i (value?.getD "true") with
              | .fatal m => .fatal m
              | .err =>
                  .err (.msg ("invalid boolean value " ++
                    goQuote (value?.getD "true") ++ " for -" ++ name)) vals
              | .ok vals2 => fsParse fields reg vals2 rest
          else
            match fields[i]? with
            | none => .fatal "runtime error: index out of range"
            | some f =>
              match value? with
              | some v =>
                  match setPrim f vals i v with
                  | .fatal m => .fatal m
                  | .err =>
                      .err (.msg ("invalid value " ++ goQuote v ++
                        " for flag -" ++ name)) vals
                  | .ok vals2 => fsParse fields reg vals2 rest
              | none =>
                  match rest with
                  | [] => .err (.msg ("flag needs an argument: -" ++ name)) vals
                  | v :: rest2 =>
                      match setPrim f vals i v with
                      | .fatal m => .fatal m
                      | .err =>
                          .err (.msg ("invalid value " ++ goQuote v ++
                            " for flag -" ++ name)) vals
                      | .ok vals2 => fsParse fields reg vals2 rest2

/-- A subcommand descriptor (`Command` in `flag.go`); the handlers are
irrelevant to parsing and are not modelled. -/
structure Command where
  name : String
  usage : String := ""
deriving DecidableEq, Repr

/-- The parser configuration: the optional subcommand resolution hook
(`Parser.CommandResolver`); the usage callback is presentational and not
modelled. -/
structure ParserM where
  resolver : Option (List String → List Command → List String × Bool) := none

/-- Overall result of `Parser.parse`: plain success, success with a
dispatched subcommand and its argument tokens, an error (help or message)
with the record cells as mutated so far, or a Go panic. -/
inductive PResult where
  | done (vals : List Value)
  | dispatch (vals : List Value) (cmd : Command) (args : List String)
  | err (vals : List Value) (e : PErr)
  | fatal (m : String)
deriving DecidableEq, Repr

/-- First command with the given name (the `lookup` closure in
`resolveSubCommand`). -/
def lookupCmd (commands : List Command) (name : String) : Option Command :=
  commands.find? (fun c => c.name == name)

/-- `Parser.resolveSubCommand`: the head token is the candidate name; on a
hit the command is returned together with the whole token remainder (name
included).  Otherwise the optional resolver may rewrite the tokens for one
retry; failing that, "unknown command". -/
def resolveSubCommand (p : ParserM) (commands : List Command)
    (args : List String) (vals : List Value) : PResult :=
  match args with
  | [] => .fatal "runtime error: index out of range"
  | cmdname :: _ =>
    match lookupCmd commands cmdname with
    | some cmd => .dispatch vals cmd args
    | none =>
      match p.resolver with
      | some r =>
          if (r args commands).2 then
            match (r args commands).1 with
            | [] => .fatal "runtime error: index out of range"
            | n2 :: _ =>
              match lookupCmd commands n2 with
              | some cmd => .dispatch vals cmd (r args commands).1
              | none => .err vals (.msg ("unknown command: " ++ cmdname))
          else .err vals (.msg ("unknown command: " ++ cmdname))
      | none => .err vals (.msg ("unknown command: " ++ cmdname))

/-- The positional-token distribution loop of `Parser.parse` (`for i, s :=
range nonflagArgs`): as long as single fields remain, bind one token each
in order; once exhausted, a multi field takes the whole tail; otherwise
stop.  Returns the cells and `consumedNonFlagArgs`, the running count `c`
starting at 0. -/
def distrib (fields : List FieldSpec) :
    List Value → List Nat → Option Nat → List String → Nat →
    Except String (List Value × Nat)
  | vals, _, _, [], c => .ok (vals, c)
  | vals, i :: ss, m, t :: ts, c =>
      match setStrDirect fields vals i t with
      | .error m2 => .error m2
      | .ok vals2 => distrib fields vals2 ss m ts (c + 1)
  | vals, [], some j, t :: ts, c =>
      match setSliceDirect fields vals j (t :: ts) with
      | .error m2 => .error m2
      | .ok vals2 => .ok (vals2, c + (t :: ts).length)
  | vals, [], none, _ :: _, c => .ok (vals, c)

/-- The tail of `Parser.parse` after token distribution: leftover tokens
are an error without a command table (two message variants), or name a
subcommand with one; with everything consumed, a non-empty command table
still demands a command. -/
def finishPhase (p : ParserM) (commands : List Command) (singles : List Nat)
    (vals : List Value) (nonflagArgs : List String) (consumed : Nat) : PResult :=
  if consumed < nonflagArgs.length then
    if commands = [] then
      if singles = [] then
        .err vals (.msg ("non-flag args not allowed: " ++ goFmtStrs nonflagArgs))
      else
        .err vals (.msg ("accept only " ++ toString singles.length ++
          " non-flag args: " ++ goFmtStrs nonflagArgs))
    else resolveSubCommand p commands (nonflagArgs.drop consumed) vals
  else if commands ≠ [] then .err vals (.msg "no command to be run")
  else .done vals

/-- `Parser.parse` from `flag.go`.  `args` is the full invocation (head =
program name).  Without a record, only help recognition runs before the
subcommand logic.  With a record: reflect the fields and build the flag
set (a scan panic propagates), reject a `[]string` non-flag field combined
with subcommands, run the underlying token parser, distribute leftover
positional tokens, and finish. -/
def parseGo (p : ParserM) (envm : String → Option String)
    (args : List String) (rec : Option (List FieldSpec × List Value))
    (commands : List Command) : PResult :=
  match args with
  | [] => .fatal "runtime error: index out of range"
  | _ :: argv =>
    match rec with
    | none =>
      match fsParse [] [] [] argv with
      | .fatal m => .fatal m
      | .err e _ => .err [] e
      | .ok _ nonFlagArgs =>
        if commands ≠ [] then
          if nonFlagArgs = [] then .err [] (.msg "no command to be run")
          else resolveSubCommand p commands nonFlagArgs []
        else if nonFlagArgs ≠ [] then
          .err [] (.msg "the command should be runs without arguments")
        else .done []
    | some (fields, vals0) =>
      match scanRecord envm fields vals0 with
      | .error m => .fatal m
      | .ok st =>
        if st.multi.isSome ∧ commands ≠ [] then
          .fatal ("non-flag field of type []string is not allowed with sub commands: "
            ++ ((st.sliceNonFlags.head?).map (·.name)).getD "")
        else
          match fsParse fields st.reg st.vals argv with
          | .fatal m => .fatal m
          | .err e vals => .err vals e
          | .ok vals nonflagArgs =>
            match distrib fields vals st.singles st.multi nonflagArgs 0 with
            | .error m => .fatal m
            | .ok (vals2, consumed) =>
                finishPhase p commands st.singles vals2 nonflagArgs consumed

/-- `Parser.Parse`: parse without subcommands. -/
def goParse (p : ParserM) (envm : String → Option String)
    (args : List String) (rec : Option (List FieldSpec × List Value)) : PResult :=
  parseGo p envm args rec []

/-- `Parser.ParseCommand`: requires at least one command. -/
def goParseCommand (p : ParserM) (envm : String → Option String)
    (args : List String) (rec : Option (List FieldSpec × List Value))
    (commands : List Command) : PResult :=
  if commands = [] then .fatal "should provide at least one command."
  else parseGo p envm args rec commands

/-- The record cells a parse result carries (`none` for a panic). -/
def PResult.vals? : PResult → Option (List Value)
  | .done vals => some vals
  | .dispatch vals _ _ => some vals
  | .err vals _ => some vals
  | .fatal _ => none

/-- The cells carried by a flag-set parse result (`none` for a panic). -/
def FSRes.vals? : FSRes → Option (List Value)
  | .ok vals _ => some vals
  | .err _ vals => some vals
  | .fatal _ => none

/-- A field that the loop registers as the multi-value positional field:
not embedded, `#`-tagged, of type `[]string`. -/
def isMultiField (f : FieldSpec) : Bool :=
  !f.anonymous && startsWithChar '#' f.tagName && f.kind == Kind.stringSlice

/-- A field in positional position whose type the loop rejects: not
embedded, `#`-tagged, of a kind other than `string` and `[]string`. -/
def isBadPositional (f : FieldSpec) : Bool :=
  !f.anonymous && startsWithChar '#' f.tagName &&
    f.kind != Kind.string && f.kind != Kind.stringSlice

/-- Number of multi-value positional fields a record declares. -/
def countMulti (fields : List FieldSpec) : Nat :=
  (fields.filter isMultiField).length

/-- The three skip conditions of the field loop: embedded/anonymous,
explicitly `name:"-"`, or nameless because the `name` tag is absent and
the identifier is empty or unexported. -/
def skippedField (f : FieldSpec) : Prop :=
  f.anonymous = true ∨ f.tagName = "-" ∨
    (f.tagName = "" ∧ (f.fname = "" ∨ isExported f.fname = false))

/-! ### Concrete fixtures used by the claim witnesses and counterexamples -/

/-- An empty process environment. -/
def envNone : String → Option String := fun _ => none

/-- A process environment where variable `E` is set to the empty string. -/
def envEmptyE : String → Option String :=
  fun e => if e = "E" then some "" else none

/-- A process environment where variable `E` is set to `7`. -/
def envE7 : String → Option String :=
  fun e => if e = "E" then some "7" else none

/-- Record field `V bool` (derived flag name `v`). -/
def exFieldV : FieldSpec := { fname := "V", kind := Kind.bool }

/-- Record field `F string` with tags `name:"f" env:"E" default:"d"`. -/
def exFieldEnvDef : FieldSpec :=
  { fname := "F", tagName := "f", tagEnv := "E", tagDefault := "d",
    kind := Kind.string }

/-- Record field `N int` with tags `name:"f" env:"E" default:"3"`. -/
def exFieldIntEnvDef : FieldSpec :=
  { fname := "N", tagName := "f", tagEnv := "E", tagDefault := "3",
    kind := Kind.int }

/-- Record field `F string` with tags `name:"f" default:"a"`. -/
def exFieldStrDef : FieldSpec :=
  { fname := "F", tagName := "f", tagDefault := "a", kind := Kind.string }

/-- Record field `F string` with tag `default:"d"` (derived name `f`). -/
def exFieldDefOnly : FieldSpec :=
  { fname := "F", tagDefault := "d", kind := Kind.string }

/-- Unexported record field `verbose bool` carrying tag `name:"x"`. -/
def exFieldUnexp : FieldSpec := { fname := "verbose", tagName := "x", kind := Kind.bool }

/-- Positional single-capture field (`name:"#"`, type `string`). -/
def exFieldPosA : FieldSpec := { fname := "A", tagName := "#", kind := Kind.string }

/-- Positional single-capture field (`name:"#"`, type `string`). -/
def exFieldPosB : FieldSpec := { fname := "B", tagName := "#", kind := Kind.string }

/-- Positional multi-capture field (`name:"#"`, type `[]string`). -/
def exFieldPosM : FieldSpec := { fname := "M", tagName := "#", kind := Kind.stringSlice }

/-- A second positional multi-capture field. -/
def exFieldPosM2 : FieldSpec := { fname := "M2", tagName := "#", kind := Kind.stringSlice }

/-- Positional field of a disallowed kind (`name:"#"`, type `int`). -/
def exFieldPosBad : FieldSpec := { fname := "N", tagName := "#", kind := Kind.int }

/-- The subcommand `create`. -/
def exCmdCreate : Command := { name := "create" }

/-! ## Helper lemmas -/

theorem string_mk_data (s : String) : String.mk s.data = s := rfl

theorem string_data_append (s t : String) : (s ++ t).data = s.data ++ t.data := by
  obtain ⟨a⟩ := s; obtain ⟨b⟩ := t; rfl

/-- A `-f=value` token parses to flag `f` with an inline value, whatever
the value text is. -/
theorem parseFlagToken_fEq (v : String) :
    parseFlagToken ("-f=" ++ v) = TokForm.flagTok "f" (some v) := by
  obtain ⟨d⟩ := v
  rfl

/-- An unknown `-h` (or `-help`) flag makes the underlying parser return
the distinguished help error, leaving the cells as they were when the
token was reached. -/
theorem fsParse_help (fields : List FieldSpec) (reg : List RegEntry)
    (vals : List Value) (tok name : String) (v? : Option String)
    (rest : List String)
    (htok : parseFlagToken tok = TokForm.flagTok name v?)
    (hlook : lookupReg reg name = none)
    (hname : name = "help" ∨ name = "h") :
    fsParse fields reg vals (tok :: rest) = .err .help vals := by
  simp only [fsParse]
  rw [htok]
  dsimp only
  rw [hlook]
  dsimp only
  rw [if_pos hname]

/-- A recognised `-f=value` token sets the bound cell from the value and
parsing continues from the updated cells — whatever the cell held
before. -/
theorem fsParse_override (fields : List FieldSpec) (reg : List RegEntry)
    (vals w : List Value) (i : Nat) (v : String) (rest : List String)
    (f : FieldSpec)
    (hlook : lookupReg reg "f" = some i)
    (hf : fields[i]? = some f)
    (hset : setPrim f vals i v = SetRes.ok w) :
    fsParse fields reg vals (("-f=" ++ v) :: rest) = fsParse fields reg w rest := by
  simp only [fsParse]
  rw [parseFlagToken_fEq]
  dsimp only
  rw [hlook]
  dsimp only
  by_cases hb : isBoolFlag fields i
  · rw [if_pos hb, hf]
    dsimp only
    simp only [Option.getD_some]
    rw [hset]
  · rw [if_neg hb, hf]
    dsimp only
    rw [hset]

/-! ## Claims -/

/-- C1, counterexample: field `F string` with `env:"E" default:"d"`, and
`E` set (to the empty string) in the process environment.  The empty
string parses successfully for a string field, yet the cell's initial
value after setup is the default `d`, not the environment's value `""` —
the claim's "when that variable is set and parses successfully" fails for
an empty environment value. -/
theorem C1_counterexample :
    envEmptyE "E" = some "" ∧
    setPrim exFieldEnvDef [Value.str ""] 0 "" = SetRes.ok [Value.str ""] ∧
    (scanRecord envEmptyE [exFieldEnvDef] [Value.str ""]).toOption.map ScanSt.vals
      = some [Value.str "d"] ∧
    Value.str "d" ≠ Value.str "" := by
  refine ⟨rfl, rfl, by rfl, by decide⟩

/-- C1 (amended): for a flag field with both `env` and `default` tags, the
cell's initial value before token parsing is the environment variable's
value when that variable is set to a non-empty string and parses
successfully; the default literal is applied (only) when the environment
assignment was not applied or failed; and an explicit `-name=value` flag
token later overrides whatever the cell holds. -/
theorem C1_amended :
    (∀ (envm : String → Option String) (f : FieldSpec) (i : Nat)
        (vals w : List Value) (env defstr : String),
        env ≠ "" → getenv envm env ≠ "" →
        setPrim f vals i (getenv envm env) = SetRes.ok w →
        applyEnvDefault envm f i vals env defstr = .ok (w, true)) ∧
    (∀ (envm : String → Option String) (f : FieldSpec) (i : Nat)
        (vals w : List Value) (env defstr : String),
        (env = "" ∨ getenv envm env = "" ∨
          setPrim f vals i (getenv envm env) = SetRes.err) →
        defstr ≠ "" → setPrim f vals i defstr = SetRes.ok w →
        applyEnvDefault envm f i vals env defstr = .ok (w, true)) ∧
    (∀ (fields : List FieldSpec) (reg : List RegEntry)
        (vals w : List Value) (i : Nat) (v : String) (rest : List String)
        (f : FieldSpec),
        lookupReg reg "f" = some i → fields[i]? = some f →
        setPrim f vals i v = SetRes.ok w →
        fsParse fields reg vals (("-f=" ++ v) :: rest) = fsParse fields reg w rest) := by
  refine ⟨?_, ?_, ?_⟩
  · intro envm f i vals w env defstr h1 h2 h3
    unfold applyEnvDefault applyEnv
    rw [if_pos h1, if_pos h2, h3]
    dsimp only
    unfold applyDefault
    simp
  · intro envm f i vals w env defstr henv hd hset
    have happlyenv : applyEnv envm f i vals env = .ok (vals, false) := by
      unfold applyEnv
      rcases henv with h | h | h
      · rw [if_neg (by simp [h])]
      · by_cases he : env ≠ ""
        · rw [if_pos he, if_neg (by simp [h])]
        · rw [if_neg he]
      · by_cases he : env ≠ ""
        · by_cases hg : getenv envm env ≠ ""
          · rw [if_pos he, if_pos hg, h]
          · rw [if_pos he, if_neg hg]
        · rw [if_neg he]
    unfold applyEnvDefault
    rw [happlyenv]
    dsimp only
    unfold applyDefault
    rw [if_pos ⟨hd, rfl⟩, hset]
  · intro fields reg vals w i v rest f hlook hf hset
    exact fsParse_override fields reg vals w i v rest f hlook hf hset

/-- C1, witness: an `int` field with `env:"E" default:"3"`.  With `E=7`
the initial value is 7; with `E` unset it is 3; a later `-f=42` token
rebinds the cell to 42. -/
theorem C1_amended_witness :
    applyEnvDefault envE7 exFieldIntEnvDef 0 [Value.int 0] "E" "3"
      = .ok ([Value.int 7], true) ∧
    applyEnvDefault envNone exFieldIntEnvDef 0 [Value.int 0] "E" "3"
      = .ok ([Value.int 3], true) ∧
    fsParse [exFieldIntEnvDef] [⟨"f", 0⟩] [Value.int 3] ["-f=42"]
      = fsParse [exFieldIntEnvDef] [⟨"f", 0⟩] [Value.int 42] [] := by
  refine ⟨C1_amended.1 envE7 exFieldIntEnvDef 0 [Value.int 0] [Value.int 7] "E" "3"
            (by decide) (by decide) rfl,
          C1_amended.2.1 envNone exFieldIntEnvDef 0 [Value.int 0] [Value.int 3] "E" "3"
            (Or.inr (Or.inl rfl)) (by decide) rfl,
          C1_amended.2.2 [exFieldIntEnvDef] [⟨"f", 0⟩] [Value.int 3] [Value.int 42]
            0 "42" [] exFieldIntEnvDef rfl rfl rfl⟩

/-- C4, counterexample: record `{V bool}` parsed against `-v -h`.  The
call does return the distinguished help error, but the record has been
mutated: `-v` already set the field before the help token was reached, so
"never mutates the record" fails. -/
theorem C4_counterexample :
    parseGo {} envNone ["prog", "-v", "-h"] (some ([exFieldV], [Value.bool false])) []
      = .err [Value.bool true] PErr.help ∧
    [Value.bool true] ≠ [Value.bool false] := by
  refine ⟨by rfl, by decide⟩

/-- C4 (amended): a help token (`-h`/`-help`, not registered as a flag)
returns the distinguished help error when it is reached during flag
scanning, before any failing or non-flag token; the help token itself
binds nothing, but fields bound earlier — env/default assignments at
setup and flag tokens preceding the help token — keep their values (no
rollback). -/
theorem C4_amended :
    (∀ (fields : List FieldSpec) (reg : List RegEntry) (vals : List Value)
        (tok name : String) (v? : Option String) (rest : List String),
        parseFlagToken tok = TokForm.flagTok name v? →
        lookupReg reg name = none → (name = "help" ∨ name = "h") →
        fsParse fields reg vals (tok :: rest) = .err .help vals) ∧
    (∀ (p : ParserM) (envm : String → Option String) (pn tok name : String)
        (v? : Option String) (rest : List String) (fields : List FieldSpec)
        (vals0 : List Value) (commands : List Command) (st : ScanSt),
        scanRecord envm fields vals0 = .ok st →
        ¬ (st.multi.isSome ∧ commands ≠ []) →
        parseFlagToken tok = TokForm.flagTok name v? →
        lookupReg st.reg name = none → (name = "help" ∨ name = "h") →
        parseGo p envm (pn :: tok :: rest) (some (fields, vals0)) commands
          = .err st.vals .help) := by
  constructor
  · exact fun fields reg vals tok name v? rest htok hlook hname =>
      fsParse_help fields reg vals tok name v? rest htok hlook hname
  · intro p envm pn tok name v? rest fields vals0 commands st hscan hpre htok hlook hname
    simp only [parseGo]
    rw [hscan]
    dsimp only
    rw [if_neg hpre]
    rw [fsParse_help fields st.reg st.vals tok name v? rest htok hlook hname]

/-- C4, witness: record `{F string default:"d"}` parsed against `-h`: the
distinguished help error is returned and the record carries the default
applied at setup (`d`), not its pre-call value. -/
theorem C4_amended_witness :
    parseGo {} envNone ["prog", "-h"] (some ([exFieldDefOnly], [Value.str ""])) []
      = .err [Value.str "d"] PErr.help := by
  exact C4_amended.2 {} envNone "prog" "-h" "h" none [] [exFieldDefOnly]
    [Value.str ""] []
    ⟨[Value.str "d"], [⟨"f", 0⟩], [], none,
      [{ name := "-f", defaultStr := "\"d\"", typeStr := "string", nonFlag := true }],
      [], []⟩
    (by rfl) (by simp) rfl rfl (Or.inr rfl)

/-- C9, counterexample: field `F string` with `default:"a"`.  The bound
default value is `a`, but the description records the quoted literal
`"a"`; feeding that annotation back through the string kind's
set-from-text yields the quoted string, not the original value. -/
theorem C9_counterexample :
    (scanRecord envNone [exFieldStrDef] [Value.str ""]).toOption.map
        (fun st => (st.vals, st.flags.map FlagInfo.defaultStr))
      = some ([Value.str "a"], ["\"a\""]) ∧
    parsePrim Kind.string "\"a\"" = some (Value.str "\"a\"") ∧
    Value.str "\"a\"" ≠ Value.str "a" := by
  refine ⟨by rfl, rfl, by decide⟩

/-- C9 (amended): for non-string primitive kinds the rendered default
annotation is the default literal itself, so re-parsing it through the
same kind's set-from-text operation reproduces the originally bound
value; for string fields the annotation is the quoted literal and the
round-trip fails (see the counterexample). -/
theorem C9_amended (f : FieldSpec) (v : Value)
    (_hprim : f.kind.isPrimitive = true) (hns : f.kind ≠ Kind.string)
    (hv : parsePrim f.kind f.tagDefault = some v) :
    quoteDefault f.kind f.tagDefault = f.tagDefault ∧
    parsePrim f.kind (quoteDefault f.kind f.tagDefault) = some v := by
  have h1 : quoteDefault f.kind f.tagDefault = f.tagDefault := by
    unfold quoteDefault
    simp [hns]
  exact ⟨h1, by rw [h1]; exact hv⟩

/-- C9, witness: an `int` field with default `42` round-trips through its
annotation. -/
theorem C9_amended_witness :
    quoteDefault Kind.int "42" = "42" ∧
    parsePrim Kind.int (quoteDefault Kind.int "42") = some (Value.int 42) := by
  exact C9_amended { fname := "N", tagDefault := "42", kind := Kind.int }
    (Value.int 42) rfl (by decide) rfl

/-- C6: without a subcommand table, tokens left over after positional
distribution are a parse error, never silently dropped: one message
variant when the record has no single positional fields, another stating
the accepted count otherwise. -/
theorem C6_leftover_errors (p : ParserM) (envm : String → Option String)
    (pn : String) (argv : List String) (fields : List FieldSpec)
    (vals0 : List Value) (st : ScanSt) (fvals : List Value)
    (toks : List String) (v2 : List Value) (consumed : Nat)
    (hscan : scanRecord envm fields vals0 = .ok st)
    (hfs : fsParse fields st.reg st.vals argv = .ok fvals toks)
    (hdist : distrib fields fvals st.singles st.multi toks 0 = .ok (v2, consumed))
    (hlt : consumed < toks.length) :
    parseGo p envm (pn :: argv) (some (fields, vals0)) [] =
      .err v2 (.msg (if st.singles = []
        then "non-flag args not allowed: " ++ goFmtStrs toks
        else "accept only " ++ toString st.singles.length ++
          " non-flag args: " ++ goFmtStrs toks)) := by
  simp only [parseGo]
  rw [hscan]
  dsimp only
  rw [if_neg (by simp)]
  rw [hfs]
  dsimp only
  rw [hdist]
  dsimp only
  unfold finishPhase
  rw [if_pos hlt, if_pos rfl]
  by_cases hs : st.singles = []
  · rw [if_pos hs, if_pos hs]
  · rw [if_neg hs, if_neg hs]

/-- C6, witness: record `{V bool}` (no positional fields) fed one leftover
token errors with the no-positional variant; record `{A}` (one positional
string) fed two tokens errors with the counted variant. -/
theorem C6_leftover_errors_witness :
    parseGo {} envNone ["prog", "x"] (some ([exFieldV], [Value.bool false])) []
      = .err [Value.bool false] (.msg "non-flag args not allowed: [x]") ∧
    parseGo {} envNone ["prog", "x", "y"] (some ([exFieldPosA], [Value.str ""])) []
      = .err [Value.str "x"] (.msg "accept only 1 non-flag args: [x y]") := by
  constructor
  · exact C6_leftover_errors {} envNone "prog" ["x"] [exFieldV] [Value.bool false]
      ⟨[Value.bool false], [⟨"v", 0⟩], [], none,
        [{ name := "-v", typeStr := "bool", nonFlag := true }], [], []⟩
      [Value.bool false] ["x"] [Value.bool false] 0 (by rfl) rfl rfl (by decide)
  · exact C6_leftover_errors {} envNone "prog" ["x", "y"] [exFieldPosA] [Value.str ""]
      ⟨[Value.str ""], [], [0], none, [],
        [{ name := "A", typeStr := "string", nonFlag := true }], []⟩
      [Value.str ""] ["x", "y"] [Value.str "x"] 1 (by rfl) rfl rfl (by decide)

/-- C7: with a non-empty subcommand table, a parse call whose tokens are
fully consumed by flag parsing and positional binding — leaving no token
to name a subcommand — returns the "no command to be run" error, both
without a record and with one; it never succeeds silently. -/
theorem C7_no_command_error :
    (∀ (p : ParserM) (envm : String → Option String) (pn : String)
        (argv : List String) (commands : List Command),
        commands ≠ [] → fsParse [] [] [] argv = .ok [] [] →
        parseGo p envm (pn :: argv) none commands
          = .err [] (.msg "no command to be run")) ∧
    (∀ (p : ParserM) (envm : String → Option String) (pn : String)
        (argv : List String) (fields : List FieldSpec) (vals0 : List Value)
        (st : ScanSt) (fvals : List Value) (toks : List String)
        (v2 : List Value) (consumed : Nat) (commands : List Command),
        scanRecord envm fields vals0 = .ok st →
        st.multi = none →
        fsParse fields st.reg st.vals argv = .ok fvals toks →
        distrib fields fvals st.singles st.multi toks 0 = .ok (v2, consumed) →
        ¬ consumed < toks.length →
        commands ≠ [] →
        parseGo p envm (pn :: argv) (some (fields, vals0)) commands
          = .err v2 (.msg "no command to be run")) := by
  constructor
  · intro p envm pn argv commands hne hfs
    simp only [parseGo]
    rw [hfs]
    dsimp only
    rw [if_pos hne, if_pos rfl]
  · intro p envm pn argv fields vals0 st fvals toks v2 consumed commands
      hscan hmnone hfs hdist hge hne
    simp only [parseGo]
    rw [hscan]
    dsimp only
    rw [if_neg (by simp [hmnone])]
    rw [hfs]
    dsimp only
    rw [hdist]
    dsimp only
    unfold finishPhase
    rw [if_neg hge, if_pos hne]

/-- C7, witness: `prog` with command table and no further tokens errors
with "no command to be run", with and without a global record. -/
theorem C7_no_command_error_witness :
    parseGo {} envNone ["prog"] none [exCmdCreate]
      = .err [] (.msg "no command to be run") ∧
    parseGo {} envNone ["prog"] (some ([exFieldV], [Value.bool false])) [exCmdCreate]
      = .err [Value.bool false] (.msg "no command to be run") := by
  constructor
  · exact C7_no_command_error.1 {} envNone "prog" [] [exCmdCreate] (by decide) rfl
  · exact C7_no_command_error.2 {} envNone "prog" [] [exFieldV] [Value.bool false]
      ⟨[Value.bool false], [⟨"v", 0⟩], [], none,
        [{ name := "-v", typeStr := "bool", nonFlag := true }], [], []⟩
      [Value.bool false] [] [Value.bool false] 0 [exCmdCreate]
      (by rfl) rfl rfl rfl (by decide) (by decide)

/-- A hit in the command table returns a command with the looked-up name. -/
theorem lookupCmd_name (commands : List Command) (n : String) (c : Command)
    (h : lookupCmd commands n = some c) : c.name = n := by
  have h2 := List.find?_some h
  simpa [beq_iff_eq] using h2

/-- Whenever `resolveSubCommand` dispatches, the returned token list
begins with the dispatched command's name. -/
theorem resolveSubCommand_head (p : ParserM) (commands : List Command)
    (args : List String) (vals w : List Value) (c : Command)
    (cargs : List String)
    (h : resolveSubCommand p commands args vals = .dispatch w c cargs) :
    cargs.head? = some c.name := by
  unfold resolveSubCommand at h
  split at h
  · simp at h
  · rename_i cmdname rest
    split at h
    · rename_i cmd hcmd
      simp only [PResult.dispatch.injEq] at h
      obtain ⟨-, h2, h3⟩ := h
      subst h2; subst h3
      simp [lookupCmd_name commands cmdname _ hcmd]
    · rename_i hmiss
      split at h
      · rename_i r
        split at h
        · split at h
          · simp at h
          · rename_i n2 rest2 heq
            split at h
            · rename_i cmd hcmd
              simp only [PResult.dispatch.injEq] at h
              obtain ⟨-, h2, h3⟩ := h
              subst h2; subst h3
              rw [heq]
              simp [lookupCmd_name commands n2 _ hcmd]
            · simp at h
        · simp at h
      · simp at h

/-- Whenever `finishPhase` dispatches, the returned token list begins with
the dispatched command's name. -/
theorem finishPhase_head (p : ParserM) (commands : List Command)
    (singles : List Nat) (vals : List Value) (nonflagArgs : List String)
    (consumed : Nat) (w : List Value) (c : Command) (cargs : List String)
    (h : finishPhase p commands singles vals nonflagArgs consumed
      = .dispatch w c cargs) :
    cargs.head? = some c.name := by
  unfold finishPhase at h
  split at h
  · split at h
    · split at h <;> simp at h
    · exact resolveSubCommand_head p commands (nonflagArgs.drop consumed)
        vals w c cargs h
  · split at h <;> simp at h

/-- C3, counterexample: the token sequence `-v "" create extra` (after the
program name) against a record with one boolean flag `v` and the command
`create` does not dispatch: the empty token ends flag scanning and
becomes the candidate command name, so the call fails with an
unknown-command error instead of dispatching to `create` with
`["extra"]`. -/
theorem C3_counterexample :
    parseGo {} envNone ["prog", "-v", "", "create", "extra"]
      (some ([exFieldV], [Value.bool false])) [exCmdCreate]
      = .err [Value.bool true] (.msg "unknown command: ") := by
  rfl

/-- C3 (amended): whenever a parse call dispatches a subcommand, the
remaining argument tokens it returns begin with the resolved subcommand's
name — the name is included (it serves as the program-name token for a
recursive subcommand parse), not excluded.  In particular `-v create
extra` dispatches to `create` with `["create", "extra"]`, while `-v ""
create extra` fails with an unknown-command error (see the
counterexample). -/
theorem C3_amended (p : ParserM) (envm : String → Option String)
    (args : List String) (rec : Option (List FieldSpec × List Value))
    (commands : List Command) (vals : List Value) (c : Command)
    (cargs : List String)
    (h : parseGo p envm args rec commands = .dispatch vals c cargs) :
    cargs.head? = some c.name := by
  unfold parseGo at h
  split at h
  · simp at h
  · split at h
    · split at h
      · simp at h
      · simp at h
      · split at h
        · split at h
          · simp at h
          · exact resolveSubCommand_head p commands _ [] vals c cargs h
        · split at h <;> simp at h
    · split at h
      · simp at h
      · split at h
        · simp at h
        · split at h
          · simp at h
          · simp at h
          · split at h
            · simp at h
            · exact finishPhase_head p commands _ _ _ _ vals c cargs h

/-- C3, witness: `-v create extra` dispatches to `create`, whose returned
token list `["create", "extra"]` begins with the command's name. -/
theorem C3_amended_witness :
    (["create", "extra"] : List String).head? = some (exCmdCreate.name) := by
  exact C3_amended {} envNone ["prog", "-v", "create", "extra"]
    (some ([exFieldV], [Value.bool false])) [exCmdCreate]
    [Value.bool true] exCmdCreate ["create", "extra"] (by rfl)

/-- Unfolding of the multi-positional-field predicate. -/
theorem isMultiField_iff (f : FieldSpec) :
    isMultiField f = true ↔
      f.anonymous = false ∧ startsWithChar '#' f.tagName = true ∧
        f.kind = Kind.stringSlice := by
  simp [isMultiField, and_assoc]

/-- Unfolding of the rejected-positional-kind predicate. -/
theorem isBadPositional_iff (f : FieldSpec) :
    isBadPositional f = true ↔
      f.anonymous = false ∧ startsWithChar '#' f.tagName = true ∧
        f.kind ≠ Kind.string ∧ f.kind ≠ Kind.stringSlice := by
  simp [isBadPositional, and_assoc]

/-- A `#`-tagged name is not the skip marker. -/
theorem startsHash_ne_dash (s : String) (h : startsWithChar '#' s = true) :
    s ≠ "-" := by
  intro he
  subst he
  exact absurd h (by decide)

/-- Processing a second multi positional field while one is already
registered panics with the duplicate message. -/
theorem processField_multi_dup (envm : String → Option String) (i : Nat)
    (f : FieldSpec) (st : ScanSt) (h : isMultiField f = true)
    (hm : st.multi.isSome = true) :
    processField envm i f st
      = .error ("duplicated non-flag field of type []string: " ++ f.fname) := by
  obtain ⟨h1, h2, h3⟩ := (isMultiField_iff f).mp h
  unfold processField
  rw [if_neg (by simp [h1])]
  dsimp only
  rw [if_neg (startsHash_ne_dash _ h2), if_pos h2, h3]
  dsimp only
  rw [if_pos hm]

/-- Processing the first multi positional field records its index. -/
theorem processField_multi_set (envm : String → Option String) (i : Nat)
    (f : FieldSpec) (st : ScanSt) (h : isMultiField f = true)
    (hm : st.multi = none) :
    ∃ info, processField envm i f st
      = .ok { st with
          multi := some i,
          sliceNonFlags := st.sliceNonFlags ++ [info] } := by
  obtain ⟨h1, h2, h3⟩ := (isMultiField_iff f).mp h
  refine ⟨{ name := if dropFirst f.tagName = "" then upperAll f.fname
              else dropFirst f.tagName,
            usage := f.tagUsage, typeStr := "string",
            nonFlagSlice := true }, ?_⟩
  unfold processField
  rw [if_neg (by simp [h1])]
  dsimp only
  rw [if_neg (startsHash_ne_dash _ h2), if_pos h2, h3]
  dsimp only
  rw [if_neg (by simp [hm])]

/-- Any field that is not a multi positional field leaves the recorded
multi index unchanged (when its processing succeeds). -/
theorem processField_nonmulti_multi (envm : String → Option String) (i : Nat)
    (f : FieldSpec) (st st2 : ScanSt) (h : isMultiField f = false)
    (hok : processField envm i f st = .ok st2) : st2.multi = st.multi := by
  unfold processField at hok
  dsimp only at hok
  split at hok
  · injection hok with h2; subst h2; rfl
  · split at hok
    · injection hok with h2; subst h2; rfl
    · split at hok
      · split at hok
        · injection hok with h2; subst h2; rfl
        · split at hok
          · exact absurd hok (by simp)
          · exfalso
            rw [Bool.eq_false_iff] at h
            exact h ((isMultiField_iff f).mpr ⟨by simp_all, by assumption, by assumption⟩)
        · exact absurd hok (by simp)
      · split at hok
        · injection hok with h2; subst h2; rfl
        · split at hok
          · exact absurd hok (by simp)
          · injection hok with h2; subst h2; rfl
          · injection hok with h2; subst h2; rfl

/-- Once a multi index is recorded, a successful scan keeps one. -/
theorem scanFields_multi_mono (envm : String → Option String) :
    ∀ (fs : List FieldSpec) (n : Nat) (st st2 : ScanSt),
      scanFields envm n fs st = .ok st2 → st.multi.isSome = true →
      st2.multi.isSome = true := by
  intro fs
  induction fs with
  | nil =>
      intro n st st2 h hm
      unfold scanFields at h
      injection h with h2
      subst h2
      exact hm
  | cons f fs ih =>
      intro n st st2 h hm
      unfold scanFields at h
      split at h
      · exact absurd h (by simp)
      · rename_i st1 hpf
        by_cases hmf : isMultiField f = true
        · rw [processField_multi_dup envm n f st hmf hm] at hpf
          exact absurd hpf (by simp)
        · have hpres := processField_nonmulti_multi envm n f st st1
            (Bool.eq_false_iff.mpr hmf) hpf
          exact ih (n + 1) st1 st2 h (by rw [hpres]; exact hm)

/-- A record containing a multi positional field scans to a recorded
multi index whenever the scan succeeds. -/
theorem scanFields_multi_present (envm : String → Option String) :
    ∀ (fs : List FieldSpec) (n : Nat) (st st2 : ScanSt),
      1 ≤ countMulti fs → scanFields envm n fs st = .ok st2 →
      st2.multi.isSome = true := by
  intro fs
  induction fs with
  | nil =>
      intro n st st2 hc _
      simp [countMulti] at hc
  | cons f fs ih =>
      intro n st st2 hc h
      unfold scanFields at h
      split at h
      · exact absurd h (by simp)
      · rename_i st1 hpf
        by_cases hmf : isMultiField f = true
        · rcases hm : st.multi with _ | j
          · obtain ⟨info, heq⟩ := processField_multi_set envm n f st hmf hm
            rw [heq] at hpf
            injection hpf with h2
            subst h2
            exact scanFields_multi_mono envm fs (n + 1) _ st2 h (by simp)
          · rw [processField_multi_dup envm n f st hmf (by simp [hm])] at hpf
            exact absurd hpf (by simp)
        · have hmf2 : isMultiField f = false := Bool.eq_false_iff.mpr hmf
          have hc2 : 1 ≤ countMulti fs := by
            simpa [countMulti, List.filter_cons, hmf2] using hc
          exact ih (n + 1) st1 st2 hc2 h

/-- With a multi index already recorded, scanning any further multi field
fails with a configuration error. -/
theorem scanFields_dup_error (envm : String → Option String) :
    ∀ (fs : List FieldSpec) (n : Nat) (st : ScanSt),
      1 ≤ countMulti fs → st.multi.isSome = true →
      ∃ m, scanFields envm n fs st = .error m := by
  intro fs
  induction fs with
  | nil =>
      intro n st hc _
      simp [countMulti] at hc
  | cons f fs ih =>
      intro n st hc hm
      by_cases hmf : isMultiField f = true
      · refine ⟨"duplicated non-flag field of type []string: " ++ f.fname, ?_⟩
        unfold scanFields
        rw [processField_multi_dup envm n f st hmf hm]
      · have hmf2 : isMultiField f = false := Bool.eq_false_iff.mpr hmf
        have hc2 : 1 ≤ countMulti fs := by
          simpa [countMulti, List.filter_cons, hmf2] using hc
        cases hpf : processField envm n f st with
        | error m =>
            refine ⟨m, ?_⟩
            unfold scanFields
            rw [hpf]
        | ok st1 =>
            have hpres := processField_nonmulti_multi envm n f st st1 hmf2 hpf
            obtain ⟨m, hm2⟩ := ih (n + 1) st1 hc2 (by rw [hpres]; exact hm)
            refine ⟨m, ?_⟩
            unfold scanFields
            rw [hpf]
            exact hm2

/-- Two multi positional fields always make the scan fail. -/
theorem scanFields_two_multi_error (envm : String → Option String) :
    ∀ (fs : List FieldSpec) (n : Nat) (st : ScanSt),
      2 ≤ countMulti fs → ∃ m, scanFields envm n fs st = .error m := by
  intro fs
  induction fs with
  | nil =>
      intro n st hc
      simp [countMulti] at hc
  | cons f fs ih =>
      intro n st hc
      by_cases hmf : isMultiField f = true
      · rcases hm : st.multi with _ | j
        · obtain ⟨info, heq⟩ := processField_multi_set envm n f st hmf hm
          have hc2 : 1 ≤ countMulti fs := by
            simp only [countMulti, List.filter_cons, hmf, if_true,
              List.length_cons] at hc ⊢
            omega
          obtain ⟨m, hm2⟩ := scanFields_dup_error envm fs (n + 1)
            { st with
                multi := some n,
                sliceNonFlags := st.sliceNonFlags ++ [info] } hc2 (by rfl)
          refine ⟨m, ?_⟩
          unfold scanFields
          rw [heq]
          exact hm2
        · refine ⟨"duplicated non-flag field of type []string: " ++ f.fname, ?_⟩
          unfold scanFields
          rw [processField_multi_dup envm n f st hmf (by simp [hm])]
      · have hmf2 : isMultiField f = false := Bool.eq_false_iff.mpr hmf
        have hc2 : 2 ≤ countMulti fs := by
          simpa [countMulti, List.filter_cons, hmf2] using hc
        cases hpf : processField envm n f st with
        | error m =>
            refine ⟨m, ?_⟩
            unfold scanFields
            rw [hpf]
        | ok st1 =>
            obtain ⟨m, hm2⟩ := ih (n + 1) st1 hc2
            refine ⟨m, ?_⟩
            unfold scanFields
            rw [hpf]
            exact hm2

/-- A `#`-tagged field of a kind other than `string`/`[]string` is a
configuration error. -/
theorem processField_bad_error (envm : String → Option String) (i : Nat)
    (f : FieldSpec) (st : ScanSt) (h : isBadPositional f = true) :
    processField envm i f st
      = .error ("only string/[]string allowed for non-flag field: " ++ f.fname) := by
  obtain ⟨h1, h2, h3, h4⟩ := (isBadPositional_iff f).mp h
  unfold processField
  rw [if_neg (by simp [h1])]
  dsimp only
  rw [if_neg (startsHash_ne_dash _ h2), if_pos h2]
  cases hk : f.kind
  case string => exact absurd hk h3
  case stringSlice => exact absurd hk h4
  all_goals rfl

/-- A record containing a badly-typed positional field always makes the
scan fail. -/
theorem scanFields_bad_error (envm : String → Option String) :
    ∀ (fs : List FieldSpec) (n : Nat) (st : ScanSt),
      (∃ f ∈ fs, isBadPositional f = true) →
      ∃ m, scanFields envm n fs st = .error m := by
  intro fs
  induction fs with
  | nil =>
      intro n st hex
      obtain ⟨f, hf, -⟩ := hex
      simp at hf
  | cons g fs ih =>
      intro n st hex
      obtain ⟨f, hf, hbad⟩ := hex
      rcases List.mem_cons.mp hf with h | h
      · subst h
        refine ⟨"only string/[]string allowed for non-flag field: " ++ f.fname, ?_⟩
        unfold scanFields
        rw [processField_bad_error envm n f st hbad]
      · cases hpf : processField envm n g st with
        | error m =>
            refine ⟨m, ?_⟩
            unfold scanFields
            rw [hpf]
        | ok st1 =>
            obtain ⟨m, hm2⟩ := ih (n + 1) st1 ⟨f, h, hbad⟩
            refine ⟨m, ?_⟩
            unfold scanFields
            rw [hpf]
            exact hm2

/-- C5: a record declaring two multi-value positional fields, or a
positional field whose kind is neither `string` nor `[]string`, makes any
parse call panic at setup time (a configuration error raised before any
token is consumed — the result is a panic for every token list). -/
theorem C5_config_panics :
    (∀ (p : ParserM) (envm : String → Option String) (pn : String)
        (argv : List String) (fields : List FieldSpec) (vals0 : List Value)
        (commands : List Command),
        2 ≤ countMulti fields →
        ∃ m, parseGo p envm (pn :: argv) (some (fields, vals0)) commands
          = .fatal m) ∧
    (∀ (p : ParserM) (envm : String → Option String) (pn : String)
        (argv : List String) (fields : List FieldSpec) (vals0 : List Value)
        (commands : List Command),
        (∃ f ∈ fields, isBadPositional f = true) →
        ∃ m, parseGo p envm (pn :: argv) (some (fields, vals0)) commands
          = .fatal m) := by
  constructor
  · intro p envm pn argv fields vals0 commands hc
    obtain ⟨m, hscan⟩ := scanFields_two_multi_error envm fields 0 { vals := vals0 } hc
    refine ⟨m, ?_⟩
    simp only [parseGo]
    rw [show scanRecord envm fields vals0 = .error m from hscan]
  · intro p envm pn argv fields vals0 commands hex
    obtain ⟨m, hscan⟩ := scanFields_bad_error envm fields 0 { vals := vals0 } hex
    refine ⟨m, ?_⟩
    simp only [parseGo]
    rw [show scanRecord envm fields vals0 = .error m from hscan]

/-- C5, witness: a record with two `#`-tagged `[]string` fields panics,
and a record with a `#`-tagged `int` field panics — on any token list. -/
theorem C5_config_panics_witness :
    (∃ m, parseGo {} envNone ["prog", "tok"]
      (some ([exFieldPosM, exFieldPosM2], [Value.strs [], Value.strs []])) []
      = .fatal m) ∧
    (∃ m, parseGo {} envNone ["prog", "tok"]
      (some ([exFieldPosBad], [Value.int 0])) [] = .fatal m) := by
  constructor
  · exact C5_config_panics.1 {} envNone "prog" ["tok"]
      [exFieldPosM, exFieldPosM2] [Value.strs [], Value.strs []] [] (by decide)
  · exact C5_config_panics.2 {} envNone "prog" ["tok"]
      [exFieldPosBad] [Value.int 0] [] ⟨exFieldPosBad, by simp, by decide⟩

/-- C10: a record containing a `[]string` multi-value positional field
cannot be combined with a non-empty subcommand table: every such parse
call panics at setup time, whatever the token list — a restriction the
spec does not state. -/
theorem C10_multi_with_commands_panics (p : ParserM)
    (envm : String → Option String) (pn : String) (argv : List String)
    (fields : List FieldSpec) (vals0 : List Value) (commands : List Command)
    (hc : 1 ≤ countMulti fields) (hne : commands ≠ []) :
    ∃ m, parseGo p envm (pn :: argv) (some (fields, vals0)) commands
      = .fatal m := by
  cases hscan : scanRecord envm fields vals0 with
  | error m =>
      refine ⟨m, ?_⟩
      simp only [parseGo]
      rw [hscan]
  | ok st =>
      have hm : st.multi.isSome = true :=
        scanFields_multi_present envm fields 0 { vals := vals0 } st hc hscan
      refine ⟨"non-flag field of type []string is not allowed with sub commands: "
        ++ ((st.sliceNonFlags.head?).map (fun x => x.name)).getD "", ?_⟩
      simp only [parseGo]
      rw [hscan]
      dsimp only
      rw [if_pos ⟨hm, hne⟩]

/-- C10, witness: the record `{M []string (positional)}` with the command
table `[create]` panics regardless of tokens. -/
theorem C10_multi_with_commands_panics_witness :
    ∃ m, parseGo {} envNone ["prog", "a", "b"]
      (some ([exFieldPosM], [Value.strs []])) [exCmdCreate] = .fatal m := by
  exact C10_multi_with_commands_panics {} envNone "prog" ["a", "b"]
    [exFieldPosM] [Value.strs []] [exCmdCreate] (by decide) (by decide)

/-- The distribution loop with `N` single fields, one multi field and
`M > N` tokens: every single field takes one token in order, the multi
field takes the whole tail, all `M` tokens are consumed, and no other
cell is touched. -/
theorem distrib_multi_spec (fields : List FieldSpec) (j : Nat)
    (g : FieldSpec) (hj : fields[j]? = some g)
    (hjexp : isExported g.fname = true) :
    ∀ (ss : List Nat) (vals : List Value) (toks : List String) (c : Nat),
      ss.length < toks.length →
      (j :: ss).Nodup →
      (∀ a ∈ ss, a < vals.length ∧
        ∃ gf, fields[a]? = some gf ∧ isExported gf.fname = true) →
      j < vals.length →
      ∃ v2, distrib fields vals ss (some j) toks c = .ok (v2, c + toks.length) ∧
        (∀ k (hk : k < ss.length),
          v2[ss.get ⟨k, hk⟩]? = (toks[k]?).map Value.str) ∧
        v2[j]? = some (Value.strs (toks.drop ss.length)) ∧
        (∀ a, a ∉ ss → a ≠ j → v2[a]? = vals[a]?) := by
  intro ss
  induction ss with
  | nil =>
      intro vals toks c hlen hnd hvalid hjlt
      match toks with
      | [] => simp at hlen
      | t :: ts =>
        refine ⟨vals.set j (Value.strs (t :: ts)), ?_, ?_, ?_, ?_⟩
        · unfold distrib setSliceDirect
          rw [hj]
          dsimp only
          rw [if_pos hjexp]
        · intro k hk
          simp at hk
        · rw [List.getElem?_set_eq_of_lt _ hjlt]
          rfl
        · intro a _ hna
          exact List.getElem?_set_ne (fun he => hna he.symm)
  | cons s ss ih =>
      intro vals toks c hlen hnd hvalid hjlt
      match toks with
      | [] => simp at hlen
      | t :: ts =>
        obtain ⟨hslt, gs, hgs, hgsexp⟩ := hvalid s (List.mem_cons_self s ss)
        rw [List.nodup_cons] at hnd
        obtain ⟨hjm, hsss⟩ := hnd
        rw [List.nodup_cons] at hsss
        obtain ⟨hsns, hssnd⟩ := hsss
        have hnd2 : (j :: ss).Nodup :=
          List.nodup_cons.mpr ⟨fun h2 => hjm (List.mem_cons_of_mem _ h2), hssnd⟩
        have hsj : s ≠ j := by
          intro h2
          subst h2
          exact hjm (List.mem_cons_self s ss)
        obtain ⟨v2, hdist, hsing, hmul, hpres⟩ :=
          ih (vals.set s (Value.str t)) ts (c + 1)
            (by simpa using Nat.lt_of_succ_lt_succ (by simpa using hlen))
            hnd2
            (by
              intro a ha
              obtain ⟨h1, h2⟩ := hvalid a (List.mem_cons_of_mem s ha)
              exact ⟨by simpa [List.length_set] using h1, h2⟩)
            (by simpa [List.length_set] using hjlt)
        refine ⟨v2, ?_, ?_, ?_, ?_⟩
        · unfold distrib setStrDirect
          rw [hgs]
          dsimp only
          rw [if_pos hgsexp]
          dsimp only
          rw [hdist]
          have heqc : c + 1 + ts.length = c + (t :: ts).length := by
            simp only [List.length_cons]
            omega
          rw [heqc]
        · intro k hk
          match k with
          | 0 =>
              have h1 : v2[s]? = (vals.set s (Value.str t))[s]? :=
                hpres s hsns hsj
              rw [show (s :: ss).get ⟨0, hk⟩ = s from rfl, h1,
                List.getElem?_set_eq_of_lt _ hslt]
              simp
          | k + 1 =>
              have hk2 : k < ss.length := by simpa using Nat.lt_of_succ_lt_succ hk
              have := hsing k hk2
              rw [show (s :: ss).get ⟨k + 1, hk⟩ = ss.get ⟨k, hk2⟩ from rfl, this]
              simp
        · exact hmul
        · intro a ha hna
          have has : a ∉ ss := fun h2 => ha (List.mem_cons_of_mem s h2)
          have hasne : a ≠ s := fun h2 => ha (h2 ▸ List.mem_cons_self s ss)
          rw [hpres a has hna]
          exact List.getElem?_set_ne (fun he => hasne he.symm)

/-- C2: with `N` single positional fields and one multi positional field,
`M > N` leftover positional tokens bind the first `N` tokens to the
single fields in declaration order and the remaining `M - N` tokens, in
order, as one sequence to the multi field, which consumes the entire
tail; the parse call succeeds. -/
theorem C2_positional_distribution (p : ParserM)
    (envm : String → Option String) (pn : String) (argv : List String)
    (fields : List FieldSpec) (vals0 : List Value) (st : ScanSt)
    (fvals : List Value) (toks : List String) (j : Nat) (g : FieldSpec)
    (hscan : scanRecord envm fields vals0 = .ok st)
    (hmulti : st.multi = some j)
    (hfs : fsParse fields st.reg st.vals argv = .ok fvals toks)
    (hlen : st.singles.length < toks.length)
    (hnd : (j :: st.singles).Nodup)
    (hvalid : ∀ a ∈ st.singles, a < fvals.length ∧
      ∃ gf, fields[a]? = some gf ∧ isExported gf.fname = true)
    (hj : fields[j]? = some g) (hjexp : isExported g.fname = true)
    (hjlt : j < fvals.length) :
    ∃ v2, parseGo p envm (pn :: argv) (some (fields, vals0)) [] = .done v2 ∧
      (∀ k (hk : k < st.singles.length),
        v2[st.singles.get ⟨k, hk⟩]? = (toks[k]?).map Value.str) ∧
      v2[j]? = some (Value.strs (toks.drop st.singles.length)) := by
  obtain ⟨v2, hdist, hsing, hmul, -⟩ :=
    distrib_multi_spec fields j g hj hjexp st.singles fvals toks 0
      hlen hnd hvalid hjlt
  refine ⟨v2, ?_, hsing, hmul⟩
  simp only [parseGo]
  rw [hscan]
  dsimp only
  rw [if_neg (by simp)]
  rw [hfs]
  dsimp only
  rw [hmulti, hdist]
  dsimp only
  unfold finishPhase
  rw [if_neg (by omega), if_neg (by simp)]

/-- C2, witness: two single positional fields and one multi positional
field fed four tokens `w x y z`: the singles take `w` and `x`, the multi
field takes `["y", "z"]`. -/
theorem C2_positional_distribution_witness :
    ∃ v2, parseGo {} envNone ["prog", "w", "x", "y", "z"]
        (some ([exFieldPosA, exFieldPosB, exFieldPosM],
          [Value.str "", Value.str "", Value.strs []])) [] = .done v2 ∧
      (∀ k (hk : k < ([0, 1] : List Nat).length),
        v2[([0, 1] : List Nat).get ⟨k, hk⟩]?
          = ((["w", "x", "y", "z"] : List String)[k]?).map Value.str) ∧
      v2[2]? = some (Value.strs (["y", "z"] : List String)) := by
  exact C2_positional_distribution {} envNone "prog" ["w", "x", "y", "z"]
    [exFieldPosA, exFieldPosB, exFieldPosM]
    [Value.str "", Value.str "", Value.strs []]
    ⟨[Value.str "", Value.str "", Value.strs []], [], [0, 1], some 2, [],
      [{ name := "A", typeStr := "string", nonFlag := true },
       { name := "B", typeStr := "string", nonFlag := true }],
      [{ name := "M", typeStr := "string", nonFlagSlice := true }]⟩
    [Value.str "", Value.str "", Value.strs []] ["w", "x", "y", "z"] 2
    exFieldPosM (by rfl) rfl rfl (by decide) (by decide)
    (by
      intro a ha
      fin_cases ha
      · exact ⟨by decide, exFieldPosA, rfl, rfl⟩
      · exact ⟨by decide, exFieldPosB, rfl, rfl⟩)
    rfl rfl (by decide)

/-- A successful `Set` writes exactly one cell. -/
theorem setPrim_ok_shape (f : FieldSpec) (vals : List Value) (i : Nat)
    (s : String) (w : List Value) (h : setPrim f vals i s = SetRes.ok w) :
    ∃ v, w = vals.set i v := by
  unfold setPrim at h
  split at h
  · split at h <;> simp at h
  · rename_i v hv
    split at h
    · injection h with h2
      exact ⟨v, h2.symm⟩
    · simp at h

/-- The env half of `addFlag` touches no cell but `i`. -/
theorem applyEnv_frame (envm : String → Option String) (f : FieldSpec)
    (i : Nat) (vals : List Value) (env : String) (vals2 : List Value)
    (b : Bool) (a : Nat) (hne : a ≠ i)
    (h : applyEnv envm f i vals env = .ok (vals2, b)) :
    vals2[a]? = vals[a]? := by
  unfold applyEnv at h
  split at h
  · split at h
    · split at h
      · simp at h
      · simp only [Except.ok.injEq, Prod.mk.injEq] at h
        rw [← h.1]
      · rename_i w hw
        simp only [Except.ok.injEq, Prod.mk.injEq] at h
        obtain ⟨v, rfl⟩ := setPrim_ok_shape f vals i _ w hw
        rw [← h.1]
        exact List.getElem?_set_ne (Ne.symm hne)
    · simp only [Except.ok.injEq, Prod.mk.injEq] at h
      rw [← h.1]
  · simp only [Except.ok.injEq, Prod.mk.injEq] at h
    rw [← h.1]

/-- The default half of `addFlag` touches no cell but `i`. -/
theorem applyDefault_frame (f : FieldSpec) (i : Nat) (vals : List Value)
    (defstr : String) (applied : Bool) (vals2 : List Value) (b : Bool)
    (a : Nat) (hne : a ≠ i)
    (h : applyDefault f i vals defstr applied = .ok (vals2, b)) :
    vals2[a]? = vals[a]? := by
  unfold applyDefault at h
  split at h
  · split at h
    · simp at h
    · simp only [Except.ok.injEq, Prod.mk.injEq] at h
      rw [← h.1]
    · rename_i w hw
      simp only [Except.ok.injEq, Prod.mk.injEq] at h
      obtain ⟨v, rfl⟩ := setPrim_ok_shape f vals i _ w hw
      rw [← h.1]
      exact List.getElem?_set_ne (Ne.symm hne)
  · simp only [Except.ok.injEq, Prod.mk.injEq] at h
    rw [← h.1]

/-- The env-then-default initialisation touches no cell but `i`. -/
theorem applyEnvDefault_frame (envm : String → Option String) (f : FieldSpec)
    (i : Nat) (vals : List Value) (env defstr : String) (vals2 : List Value)
    (b : Bool) (a : Nat) (hne : a ≠ i)
    (h : applyEnvDefault envm f i vals env defstr = .ok (vals2, b)) :
    vals2[a]? = vals[a]? := by
  cases henv : applyEnv envm f i vals env with
  | error m =>
      unfold applyEnvDefault at h
      rw [henv] at h
      simp at h
  | ok pr =>
      obtain ⟨vals1, b1⟩ := pr
      unfold applyEnvDefault at h
      rw [henv] at h
      dsimp only at h
      rw [applyDefault_frame f i vals1 defstr b1 vals2 b a hne h]
      exact applyEnv_frame envm f i vals env vals1 b1 a hne henv

/-- Registration only ever appends entries for field `i`. -/
theorem registerNames_mem (i : Nat) :
    ∀ (names : List String) (reg reg2 : List RegEntry) (e : RegEntry),
      registerNames reg names i = .ok reg2 → e ∈ reg2 →
      e ∈ reg ∨ e.idx = i := by
  intro names
  induction names with
  | nil =>
      intro reg reg2 e h he
      unfold registerNames at h
      injection h with h2
      subst h2
      exact Or.inl he
  | cons n ns ih =>
      intro reg reg2 e h he
      unfold registerNames at h
      split at h
      · simp at h
      · rename_i regM hvar
        rcases ih regM reg2 e h he with h2 | h2
        · unfold goVar at hvar
          split at hvar
          · simp at hvar
          · split at hvar
            · simp at hvar
            · split at hvar
              · simp at hvar
              · injection hvar with h3
                subst h3
                rcases List.mem_append.mp h2 with h4 | h4
                · exact Or.inl h4
                · simp at h4
                  subst h4
                  exact Or.inr rfl
        · exact Or.inr h2

/-- `addFlag` touches no cell but `i` and registers only entries for `i`. -/
theorem addFlagM_frame (envm : String → Option String) (f : FieldSpec)
    (i : Nat) (vals : List Value) (reg : List RegEntry)
    (names : List String) (env defstr d2 : String) (vals2 : List Value)
    (reg2 : List RegEntry)
    (h : addFlagM envm f i vals reg names env defstr
      = .ok (some (d2, vals2, reg2))) :
    (∀ a, a ≠ i → vals2[a]? = vals[a]?) ∧
    (∀ e ∈ reg2, e ∈ reg ∨ e.idx = i) := by
  unfold addFlagM at h
  split at h
  · simp at h
  · cases henvdef : applyEnvDefault envm f i vals env defstr with
    | error m =>
        rw [henvdef] at h
        simp at h
    | ok pr =>
        obtain ⟨vals1, b1⟩ := pr
        rw [henvdef] at h
        dsimp only at h
        cases hregn : registerNames reg names i with
        | error m =>
            rw [hregn] at h
            simp at h
        | ok reg1 =>
            rw [hregn] at h
            dsimp only at h
            simp only [Except.ok.injEq, Option.some.injEq, Prod.mk.injEq] at h
            obtain ⟨-, h2, h3⟩ := h
            subst h2
            subst h3
            constructor
            · intro a hne
              exact applyEnvDefault_frame envm f i vals env defstr vals1 b1 a hne henvdef
            · intro e he
              exact registerNames_mem i names reg reg1 e hregn he

/-- Every skip condition of the field loop really skips: the scan state
is returned untouched (no registration, no cell mutation, no description
entry). -/
theorem processField_skip (envm : String → Option String) (n : Nat)
    (f : FieldSpec) (st : ScanSt) (h : skippedField f) :
    processField envm n f st = .ok st := by
  rcases h with h | h | ⟨h1, h2⟩
  · unfold processField
    rw [if_pos h]
  · unfold processField
    by_cases ha : f.anonymous = true
    · rw [if_pos ha]
    · rw [if_neg ha]
      dsimp only
      rw [if_pos h]
  · unfold processField
    by_cases ha : f.anonymous = true
    · rw [if_pos ha]
    · rw [if_neg ha]
      dsimp only
      rw [h1]
      rw [if_neg (by decide), if_neg (by decide), if_pos rfl,
        if_pos (h2.imp id (fun hh => by simp [hh]))]

/-- Processing field `n` mutates only cell `n`, registers only aliases
for index `n`, appends at most the index `n` to the positional lists, and
records at most `n` as the multi index. -/
theorem processField_frame (envm : String → Option String) (n : Nat)
    (f : FieldSpec) (st st2 : ScanSt)
    (h : processField envm n f st = .ok st2) :
    (∀ a, a ≠ n → st2.vals[a]? = st.vals[a]?) ∧
    (∀ e ∈ st2.reg, e ∈ st.reg ∨ e.idx = n) ∧
    (∀ a, a ∈ st2.singles → a ∈ st.singles ∨ a = n) ∧
    (∀ a, st2.multi = some a → st.multi = some a ∨ a = n) := by
  unfold processField at h
  dsimp only at h
  split at h
  · injection h with h2
    subst h2
    exact ⟨fun a _ => rfl, fun e he => Or.inl he, fun a ha => Or.inl ha,
      fun a ha => Or.inl ha⟩
  · split at h
    · injection h with h2
      subst h2
      exact ⟨fun a _ => rfl, fun e he => Or.inl he, fun a ha => Or.inl ha,
        fun a ha => Or.inl ha⟩
    · split at h
      · split at h
        · injection h with h2
          subst h2
          refine ⟨fun a _ => rfl, fun e he => Or.inl he, fun a ha => ?_,
            fun a ha => Or.inl ha⟩
          rcases List.mem_append.mp ha with h3 | h3
          · exact Or.inl h3
          · simp at h3
            exact Or.inr h3
        · split at h
          · simp at h
          · injection h with h2
            subst h2
            refine ⟨fun a _ => rfl, fun e he => Or.inl he,
              fun a ha => Or.inl ha, fun a ha => ?_⟩
            simp only at ha
            injection ha with h3
            exact Or.inr h3.symm
        · simp at h
      · split at h
        · injection h with h2
          subst h2
          exact ⟨fun a _ => rfl, fun e he => Or.inl he, fun a ha => Or.inl ha,
            fun a ha => Or.inl ha⟩
        · split at h
          · simp at h
          · injection h with h2
            subst h2
            exact ⟨fun a _ => rfl, fun e he => Or.inl he,
              fun a ha => Or.inl ha, fun a ha => Or.inl ha⟩
          · rename_i d2 vals2 reg2 haf
            injection h with h2
            subst h2
            obtain ⟨hv, hr⟩ := addFlagM_frame envm f n st.vals st.reg _ _ _
              d2 vals2 reg2 haf
            exact ⟨hv, hr, fun a ha => Or.inl ha, fun a ha => Or.inl ha⟩

/-- Scanning fields that do not sit at index `i` — and where any field at
index `i` is skipped — preserves cell `i`, keeps `i` out of every
positional list, and registers no flag for it. -/
theorem scanFields_skip_frame (envm : String → Option String) :
    ∀ (fs : List FieldSpec) (n : Nat) (st st2 : ScanSt) (i : Nat),
      (∀ k g, fs[k]? = some g → n + k = i → skippedField g) →
      scanFields envm n fs st = .ok st2 →
      (∀ e ∈ st.reg, e.idx ≠ i) → i ∉ st.singles → st.multi ≠ some i →
      st2.vals[i]? = st.vals[i]? ∧ (∀ e ∈ st2.reg, e.idx ≠ i) ∧
        i ∉ st2.singles ∧ st2.multi ≠ some i := by
  intro fs
  induction fs with
  | nil =>
      intro n st st2 i _ h hreg hsing hmulti
      unfold scanFields at h
      injection h with h2
      subst h2
      exact ⟨rfl, hreg, hsing, hmulti⟩
  | cons f fs ih =>
      intro n st st2 i hskip h hreg hsing hmulti
      unfold scanFields at h
      split at h
      · simp at h
      · rename_i st1 hpf
        by_cases hni : n = i
        · have hsf : skippedField f := hskip 0 f (by simp) (by omega)
          rw [processField_skip envm n f st hsf] at hpf
          injection hpf with h2
          subst h2
          exact ih (n + 1) _ st2 i
            (fun k g hk hik => hskip (k + 1) g (by simpa using hk) (by omega))
            h hreg hsing hmulti
        · obtain ⟨hv, hr, hs, hm⟩ := processField_frame envm n f st st1 hpf
          have hreg1 : ∀ e ∈ st1.reg, e.idx ≠ i := by
            intro e he
            rcases hr e he with h2 | h2
            · exact hreg e h2
            · rw [h2]
              exact hni
          have hsing1 : i ∉ st1.singles := by
            intro h2
            rcases hs i h2 with h3 | h3
            · exact hsing h3
            · exact hni h3.symm
          have hmulti1 : st1.multi ≠ some i := by
            intro h2
            rcases hm i h2 with h3 | h3
            · exact hmulti h3
            · exact hni h3.symm
          obtain ⟨hv2, hr2, hs2, hm2⟩ := ih (n + 1) st1 st2 i
            (fun k g hk hik => hskip (k + 1) g (by simpa using hk) (by omega))
            h hreg1 hsing1 hmulti1
          exact ⟨by rw [hv2, hv i (fun h2 => hni h2.symm)], hr2, hs2, hm2⟩

/-- A successful flag lookup names an index carried by some registered
entry. -/
theorem lookupReg_mem (reg : List RegEntry) (name : String) (idx : Nat)
    (h : lookupReg reg name = some idx) : ∃ e ∈ reg, e.idx = idx := by
  unfold lookupReg at h
  cases hf : reg.find? (fun e => e.name == name) with
  | none => rw [hf] at h; simp at h
  | some e =>
      rw [hf] at h
      simp only [Option.map_some'] at h
      injection h with h2
      exact ⟨e, List.mem_of_find?_eq_some hf, h2⟩

/-- The underlying token parser writes only through registered flags: a
cell whose index no registered entry carries is preserved, in the success
and in the error outcome. -/
theorem fsParse_frame (fields : List FieldSpec) (reg : List RegEntry)
    (i : Nat) (hreg : ∀ e ∈ reg, e.idx ≠ i) :
    ∀ (N : Nat) (args : List String) (vals w : List Value),
      args.length ≤ N → (fsParse fields reg vals args).vals? = some w →
      w[i]? = vals[i]? := by
  intro N
  induction N with
  | zero =>
      intro args vals w hlen h
      match args with
      | [] =>
        simp only [fsParse, FSRes.vals?, Option.some.injEq] at h
        subst h
        rfl
      | a :: rest => simp at hlen
  | succ N ihN =>
      intro args vals w hlen h
      match args with
      | [] =>
        simp only [fsParse, FSRes.vals?, Option.some.injEq] at h
        subst h
        rfl
      | s :: rest =>
        simp only [fsParse] at h
        cases htok : parseFlagToken s with
        | nonflag =>
            rw [htok] at h
            dsimp only at h
            simp only [FSRes.vals?, Option.some.injEq] at h
            subst h
            rfl
        | term =>
            rw [htok] at h
            dsimp only at h
            simp only [FSRes.vals?, Option.some.injEq] at h
            subst h
            rfl
        | bad =>
            rw [htok] at h
            dsimp only at h
            simp only [FSRes.vals?, Option.some.injEq] at h
            subst h
            rfl
        | flagTok name v? =>
            rw [htok] at h
            dsimp only at h
            cases hlook : lookupReg reg name with
            | none =>
                rw [hlook] at h
                dsimp only at h
                split at h <;>
                  (simp only [FSRes.vals?, Option.some.injEq] at h; subst h; rfl)
            | some idx =>
                rw [hlook] at h
                dsimp only at h
                obtain ⟨e, hemem, heidx⟩ := lookupReg_mem reg name idx hlook
                have hidx : idx ≠ i := heidx ▸ hreg e hemem
                by_cases hb : isBoolFlag fields idx = true
                · rw [if_pos hb] at h
                  cases hf2 : fields[idx]? with
                  | none =>
                      rw [hf2] at h
                      simp [FSRes.vals?] at h
                  | some f2 =>
                      rw [hf2] at h
                      dsimp only at h
                      cases hset : setPrim f2 vals idx (v?.getD "true") with
                      | fatal m =>
                          rw [hset] at h
                          simp [FSRes.vals?] at h
                      | err =>
                          rw [hset] at h
                          dsimp only at h
                          simp only [FSRes.vals?, Option.some.injEq] at h
                          subst h
                          rfl
                      | ok vals2 =>
                          rw [hset] at h
                          dsimp only at h
                          obtain ⟨v, rfl⟩ := setPrim_ok_shape f2 vals idx _ vals2 hset
                          rw [ihN rest _ w
                            (by simp only [List.length_cons] at hlen; omega) h]
                          exact List.getElem?_set_ne hidx
                · rw [if_neg hb] at h
                  cases hf2 : fields[idx]? with
                  | none =>
                      rw [hf2] at h
                      simp [FSRes.vals?] at h
                  | some f2 =>
                      rw [hf2] at h
                      dsimp only at h
                      cases v? with
                      | some v =>
                          dsimp only at h
                          cases hset : setPrim f2 vals idx v with
                          | fatal m =>
                              rw [hset] at h
                              simp [FSRes.vals?] at h
                          | err =>
                              rw [hset] at h
                              dsimp only at h
                              simp only [FSRes.vals?, Option.some.injEq] at h
                              subst h
                              rfl
                          | ok vals2 =>
                              rw [hset] at h
                              dsimp only at h
                              obtain ⟨vv, rfl⟩ :=
                                setPrim_ok_shape f2 vals idx _ vals2 hset
                              rw [ihN rest _ w
                                (by simp only [List.length_cons] at hlen; omega) h]
                              exact List.getElem?_set_ne hidx
                      | none =>
                          dsimp only at h
                          cases rest with
                          | nil =>
                              dsimp only at h
                              simp only [FSRes.vals?, Option.some.injEq] at h
                              subst h
                              rfl
                          | cons v2 rest2 =>
                              dsimp only at h
                              cases hset : setPrim f2 vals idx v2 with
                              | fatal m =>
                                  rw [hset] at h
                                  simp [FSRes.vals?] at h
                              | err =>
                                  rw [hset] at h
                                  dsimp only at h
                                  simp only [FSRes.vals?, Option.some.injEq] at h
                                  subst h
                                  rfl
                              | ok vals2 =>
                                  rw [hset] at h
                                  dsimp only at h
                                  obtain ⟨vv, rfl⟩ :=
                                    setPrim_ok_shape f2 vals idx _ vals2 hset
                                  rw [ihN rest2 _ w
                                    (by simp only [List.length_cons] at hlen; omega) h]
                                  exact List.getElem?_set_ne hidx

/-- The distribution loop writes only through the single and multi
positional indices. -/
theorem distrib_frame (fields : List FieldSpec) (i : Nat) :
    ∀ (toks : List String) (vals : List Value) (ss : List Nat)
      (m : Option Nat) (c : Nat) (v2 : List Value) (c2 : Nat),
      i ∉ ss → (∀ j, m = some j → j ≠ i) →
      distrib fields vals ss m toks c = .ok (v2, c2) →
      v2[i]? = vals[i]? := by
  intro toks
  induction toks with
  | nil =>
      intro vals ss m c v2 c2 _ _ h
      match ss, m with
      | _, _ =>
        unfold distrib at h
        simp only [Except.ok.injEq, Prod.mk.injEq] at h
        rw [← h.1]
  | cons t ts ih =>
      intro vals ss m c v2 c2 hss hm h
      match ss, m with
      | s :: ss2, m =>
        unfold distrib at h
        split at h
        · simp at h
        · rename_i vals1 hset
          unfold setStrDirect at hset
          split at hset
          · simp at hset
          · split at hset
            · injection hset with h2
              subst h2
              have hsi : s ≠ i := fun h3 => hss (h3 ▸ List.mem_cons_self s ss2)
              rw [ih (vals.set s (Value.str t)) ss2 m (c + 1) v2 c2
                (fun h3 => hss (List.mem_cons_of_mem s h3)) hm h]
              exact List.getElem?_set_ne hsi
            · simp at hset
      | [], some j =>
        unfold distrib at h
        split at h
        · simp at h
        · rename_i vals1 hset
          unfold setSliceDirect at hset
          split at hset
          · simp at hset
          · split at hset
            · injection hset with h2
              subst h2
              simp only [Except.ok.injEq, Prod.mk.injEq] at h
              rw [← h.1]
              exact List.getElem?_set_ne (hm j rfl)
            · simp at hset
      | [], none =>
        unfold distrib at h
        simp only [Except.ok.injEq, Prod.mk.injEq] at h
        rw [← h.1]

/-- `resolveSubCommand` never mutates the record cells. -/
theorem resolveSubCommand_vals (p : ParserM) (commands : List Command)
    (args : List String) (vals w : List Value)
    (h : (resolveSubCommand p commands args vals).vals? = some w) :
    w = vals := by
  unfold resolveSubCommand at h
  split at h
  · simp [PResult.vals?] at h
  · split at h
    · simp only [PResult.vals?, Option.some.injEq] at h
      exact h.symm
    · split at h
      · split at h
        · split at h
          · simp [PResult.vals?] at h
          · split at h
            · simp only [PResult.vals?, Option.some.injEq] at h
              exact h.symm
            · simp only [PResult.vals?, Option.some.injEq] at h
              exact h.symm
        · simp only [PResult.vals?, Option.some.injEq] at h
          exact h.symm
      · simp only [PResult.vals?, Option.some.injEq] at h
        exact h.symm

/-- The finishing phase never mutates the record cells. -/
theorem finishPhase_vals (p : ParserM) (commands : List Command)
    (singles : List Nat) (vals : List Value) (nonflagArgs : List String)
    (consumed : Nat) (w : List Value)
    (h : (finishPhase p commands singles vals nonflagArgs consumed).vals?
      = some w) : w = vals := by
  unfold finishPhase at h
  split at h
  · split at h
    · split at h <;>
        (simp only [PResult.vals?, Option.some.injEq] at h; exact h.symm)
    · exact resolveSubCommand_vals p commands _ vals w h
  · split at h <;>
      (simp only [PResult.vals?, Option.some.injEq] at h; exact h.symm)

/-- C8, counterexample: the unexported field `verbose` carries an explicit
`name:"x"` tag.  The claim says unexported fields are skipped with no flag
registered — but the exported-name check only runs when the `name` tag is
empty, so a flag `x` IS registered for this field. -/
theorem C8_counterexample :
    isExported exFieldUnexp.fname = false ∧
    (scanRecord envNone [exFieldUnexp] [Value.bool false]).toOption.map
        ScanSt.reg = some [⟨"x", 0⟩] := by
  exact ⟨rfl, by rfl⟩

/-- C8 (amended): embedded/anonymous fields, fields with `name:"-"`, and
unexported (or nameless) fields WITHOUT a name tag are skipped — no flag
is registered for them and their storage is never mutated by the parse
call; but an unexported field with an explicit name tag is not skipped: a
flag is registered for it (see the counterexample). -/
theorem C8_amended :
    (∀ (envm : String → Option String) (n : Nat) (f : FieldSpec)
        (st : ScanSt), skippedField f → processField envm n f st = .ok st) ∧
    (∀ (p : ParserM) (envm : String → Option String) (pn : String)
        (argv : List String) (fields : List FieldSpec) (vals0 : List Value)
        (commands : List Command) (i : Nat) (f : FieldSpec) (w : List Value),
        fields[i]? = some f → skippedField f →
        (parseGo p envm (pn :: argv) (some (fields, vals0)) commands).vals?
          = some w →
        w[i]? = vals0[i]?) ∧
    (∃ st2, processField envNone 0 exFieldUnexp { vals := [Value.bool false] }
        = .ok st2 ∧ st2.reg = [⟨"x", 0⟩]) := by
  refine ⟨processField_skip, ?_, ?_⟩
  · intro p envm pn argv fields vals0 commands i f w hf hskipf h
    revert h
    simp only [parseGo]
    cases hscan : scanRecord envm fields vals0 with
    | error m =>
        intro h
        simp [PResult.vals?] at h
    | ok st =>
        obtain ⟨hv, hreg, hsing, hmulti⟩ :=
          scanFields_skip_frame envm fields 0 { vals := vals0 } st i
            (fun k g hk hik => by
              have hki : k = i := by omega
              subst hki
              rw [hf] at hk
              injection hk with h2
              subst h2
              exact hskipf)
            hscan (by simp) (by simp) (by simp)
        dsimp only
        by_cases hpre : st.multi.isSome = true ∧ commands ≠ []
        · rw [if_pos hpre]
          intro h
          simp [PResult.vals?] at h
        · rw [if_neg hpre]
          cases hfs : fsParse fields st.reg st.vals argv with
          | fatal m =>
              intro h
              simp [PResult.vals?] at h
          | err e fv =>
              dsimp only
              intro h
              simp only [PResult.vals?, Option.some.injEq] at h
              subst h
              have h1 : fv[i]? = st.vals[i]? :=
                fsParse_frame fields st.reg i hreg argv.length argv st.vals fv
                  (le_refl _) (by rw [hfs]; rfl)
              rw [h1, hv]
          | ok fv toks =>
              dsimp only
              cases hdist : distrib fields fv st.singles st.multi toks 0 with
              | error m =>
                  intro h
                  simp [PResult.vals?] at h
              | ok pr =>
                  obtain ⟨v2, consumed⟩ := pr
                  dsimp only
                  intro h
                  have hw : w = v2 :=
                    finishPhase_vals p commands st.singles v2 toks consumed w h
                  subst hw
                  have h2 : w[i]? = fv[i]? :=
                    distrib_frame fields i toks fv st.singles st.multi 0 w
                      consumed hsing
                      (fun j hj hji => hmulti (by rw [← hji]; exact hj))
                      hdist
                  have h3 : fv[i]? = st.vals[i]? :=
                    fsParse_frame fields st.reg i hreg argv.length argv st.vals
                      fv (le_refl _) (by rw [hfs]; rfl)
                  rw [h2, h3, hv]
  · exact ⟨⟨[Value.bool false], [⟨"x", 0⟩], [], none,
      [{ name := "-x", typeStr := "bool", nonFlag := true }], [], []⟩,
      by rfl, rfl⟩

/-- C8, witness: an unexported untagged field is skipped untouched, and an
embedded field's cell survives a parse that binds the flag next to it. -/
theorem C8_amended_witness :
    processField envNone 5 ⟨"hidden", false, "", "", "", "", none, Kind.bool⟩
      { vals := [] } = .ok { vals := [] } ∧
    ([Value.str "keep", Value.bool true] : List Value)[0]?
      = ([Value.str "keep", Value.bool false] : List Value)[0]? := by
  constructor
  · exact C8_amended.1 envNone 5 ⟨"hidden", false, "", "", "", "", none, Kind.bool⟩
      { vals := [] } (Or.inr (Or.inr ⟨rfl, Or.inr rfl⟩))
  · exact C8_amended.2.1 {} envNone "prog" ["-v"]
      [⟨"Emb", true, "", "", "", "", none, Kind.string⟩, exFieldV]
      [Value.str "keep", Value.bool false] [] 0
      ⟨"Emb", true, "", "", "", "", none, Kind.string⟩
      [Value.str "keep", Value.bool true] rfl (Or.inl rfl) (by rfl)

end Sflag
